import Mathlib

/-!
Verification of the ephemeris / photometry / shadow-geometry engine of
`src/modules/planets.c` (Stellarium Web Engine planets module).

The development shallowly embeds the C code over the real numbers:
C `double` arithmetic is modelled by `ℝ`, C structs by Lean structures,
the in-place cache mutations of `planet_get_pvh` / `planet_get_pvo` by
explicit state passing (each function returns its value together with the
updated planet record), and the external ephemeris routines (`eraPlan94`,
`l12`, `moon_pos`, `orbit_compute_pv`), which are third-party library code
not part of this repository's sources, by an explicit `Ephem` parameter
that theorems quantify over.
-/

/-! ### Vectors and position-velocity pairs -/

/-- A 3-vector of doubles (`double v[3]`), modelled over `ℝ`. -/
@[ext] structure Vec3 where
  x : ℝ
  y : ℝ
  z : ℝ

namespace Vec3

def zero : Vec3 := ⟨0, 0, 0⟩

def add (a b : Vec3) : Vec3 := ⟨a.x + b.x, a.y + b.y, a.z + b.z⟩

def sub (a b : Vec3) : Vec3 := ⟨a.x - b.x, a.y - b.y, a.z - b.z⟩

def smul (k : ℝ) (a : Vec3) : Vec3 := ⟨k * a.x, k * a.y, k * a.z⟩

def dot (a b : Vec3) : ℝ := a.x * b.x + a.y * b.y + a.z * b.z

/-- Squared euclidean norm (`vec3_norm2`). -/
def norm2 (a : Vec3) : ℝ := a.x * a.x + a.y * a.y + a.z * a.z

/-- Euclidean norm (`vec3_norm`). -/
noncomputable def norm (a : Vec3) : ℝ := Real.sqrt a.norm2

/-- Norm of the first two components (`vec2_norm` applied to a 3-vector,
as the C code does in `could_cast_shadow`). -/
noncomputable def vec2norm (a : Vec3) : ℝ := Real.sqrt (a.x * a.x + a.y * a.y)

/-- Normalization (`vec3_normalize`): `v / ‖v‖`. -/
noncomputable def normalize (a : Vec3) : Vec3 := smul (1 / a.norm) a

end Vec3

/-- A position-velocity pair (`double pv[2][3]`). -/
@[ext] structure PV where
  p : Vec3
  v : Vec3

namespace PV

def zero : PV := ⟨Vec3.zero, Vec3.zero⟩

/-- Componentwise sum of two pv-vectors (`eraPvppv`). -/
def add (a b : PV) : PV := ⟨a.p.add b.p, a.v.add b.v⟩

/-- Componentwise difference of two pv-vectors (`eraPvmpv`). -/
def sub (a b : PV) : PV := ⟨a.p.sub b.p, a.v.sub b.v⟩

end PV

/-- Linear extrapolation of a pv-vector (`eraPvu`): the position is advanced
by `dt` times the velocity, the velocity is returned unchanged. -/
def eraPvu (dt : ℝ) (pv : PV) : PV := ⟨pv.p.add (Vec3.smul dt pv.v), pv.v⟩

/-- Modelled from the spec: the angular separation between two directions
(ERFA's `eraSepp`, third-party code outside this repository's sources),
i.e. the angle between the two vectors, in radians. -/
noncomputable def sepp (a b : Vec3) : ℝ :=
  Real.arccos (a.dot b / (a.norm * b.norm))

/-! ### Physical constants

`DAU` (meters per astronomical unit) and `ERFA_DAYSEC` are ERFA constants;
`DJY` is the number of days in a Julian year.  `LIGHT_YEAR_IN_METER` is a
macro of the repository that is not part of the sources under
consideration; modelled from the spec (one-way light travel time) as the
IAU light year, the distance travelled by light in one Julian year. -/

def DAU : ℝ := 149597870700

def ERFA_DAYSEC : ℝ := 86400

def DJY : ℝ := 365.25

/-- Modelled from the spec: meters per light year (speed of light times the
seconds of a Julian year). -/
def LIGHT_YEAR_IN_METER : ℝ := 299792458 * (86400 * 365.25)

/-! ### Eclipse factor: the disk-overlap computation

Direct translation of the body of `compute_sun_eclipse_factor`
(src/modules/planets.c lines 330-341) once the angular size `sun_r` of the
light source, the angular size `sph_r` of the occluder and their angular
separation `sep` have been computed.  Note the constant `1.57079633` of
line 340: the C code uses it in place of `π / 2`, so the "source disk
area" `AS` is `sun_r² · 3.14159266`, not `π · sun_r²`. -/

/-- Abscissa of the radical line of the two disks (`double x`, line 335). -/
noncomputable def lensX (sun_r sph_r sep : ℝ) : ℝ :=
  (sun_r * sun_r + sep * sep - sph_r * sph_r) / (2 * sep)

/-- Circular-segment area on the light-source side (`AR`, line 338). -/
noncomputable def lensAR (sun_r sph_r sep : ℝ) : ℝ :=
  sun_r * sun_r *
    (Real.arccos (lensX sun_r sph_r sep / sun_r) -
      0.5 * Real.sin (2 * Real.arccos (lensX sun_r sph_r sep / sun_r)))

/-- Circular-segment area on the occluder side (`Ar`, line 339). -/
noncomputable def lensAr (sun_r sph_r sep : ℝ) : ℝ :=
  sph_r * sph_r *
    (Real.arccos ((sep - lensX sun_r sph_r sep) / sph_r) -
      0.5 * Real.sin (2 * Real.arccos ((sep - lensX sun_r sph_r sep) / sph_r)))

/-- Total lens-shaped overlap area of the two disks. -/
noncomputable def lensArea (sun_r sph_r sep : ℝ) : ℝ :=
  lensAR sun_r sph_r sep + lensAr sun_r sph_r sep

/-- The code's "source disk area" (`AS`, line 340): note `2.0 * 1.57079633`
in place of `π`. -/
noncomputable def lensAS (sun_r : ℝ) : ℝ := sun_r * sun_r * 2.0 * 1.57079633

/-- The eclipse-factor classification of `compute_sun_eclipse_factor`
(lines 330-341), as a function of the two angular sizes and the angular
separation. -/
noncomputable def eclipseFactorCore (sun_r sph_r sep : ℝ) : ℝ :=
  if sun_r + sph_r ≤ sep then 1
  else if sep ≤ sph_r - sun_r then 0
  else if sep ≤ sun_r - sph_r then 1 - sph_r * sph_r / (sun_r * sun_r)
  else 1 - (lensAR sun_r sph_r sep + lensAr sun_r sph_r sep) / lensAS sun_r

/-! ### The code's approximation of π -/

/-- The constant `2 * 1.57079633` used by the code for the disk area
slightly exceeds `π` (the code's constant is `π/2` rounded up in the 8th
decimal).  This strict inequality is what makes the computed factor
nonnegative and monotone; the strictness is also what breaks continuity at
the internal-tangency boundary. -/
lemma pi_lt_code_const : Real.pi < 2 * 1.57079633 := by
  refine lt_trans Real.pi_lt_d20 ?_
  norm_num

lemma code_const_pos : (0:ℝ) < 2 * 1.57079633 := by norm_num

/-! ### Analysis of the lens area -/

/-- Area of a circular segment of the unit disk, as a function of the
cosine of the half-opening angle. -/
noncomputable def segFun (t : ℝ) : ℝ := Real.arccos t - t * Real.sqrt (1 - t ^ 2)

lemma segFun_hasDerivAt {t : ℝ} (h1 : -1 < t) (h2 : t < 1) :
    HasDerivAt segFun (-2 * Real.sqrt (1 - t ^ 2)) t := by
  have hs : (0:ℝ) < 1 - t ^ 2 := by nlinarith
  have hinner : HasDerivAt (fun s : ℝ => 1 - s ^ 2) (-(2 * t)) t := by
    simpa using (hasDerivAt_pow 2 t).const_sub 1
  have hcomp : HasDerivAt (fun s : ℝ => Real.sqrt (1 - s ^ 2))
      (1 / (2 * Real.sqrt (1 - t ^ 2)) * -(2 * t)) t :=
    (Real.hasDerivAt_sqrt (ne_of_gt hs)).comp t hinner
  have hmul : HasDerivAt (fun s : ℝ => s * Real.sqrt (1 - s ^ 2))
      (1 * Real.sqrt (1 - t ^ 2) + t * (1 / (2 * Real.sqrt (1 - t ^ 2)) * -(2 * t))) t :=
    (hasDerivAt_id t).mul hcomp
  have harc : HasDerivAt Real.arccos (-(1 / Real.sqrt (1 - t ^ 2))) t :=
    Real.hasDerivAt_arccos h1.ne' (ne_of_lt h2)
  have h := harc.sub hmul
  have hpos : 0 < Real.sqrt (1 - t ^ 2) := Real.sqrt_pos.mpr hs
  have hsq : Real.sqrt (1 - t ^ 2) ^ 2 = 1 - t ^ 2 := Real.sq_sqrt hs.le
  convert h using 1
  field_simp
  nlinarith [hsq, hpos]

lemma lensX_hasDerivAt (R r : ℝ) {d : ℝ} (hd : d ≠ 0) :
    HasDerivAt (fun y => lensX R r y) ((d * d - R * R + r * r) / (2 * d * d)) d := by
  have hnum : HasDerivAt (fun y : ℝ => R * R + y * y - r * r) (2 * d) d := by
    have h := ((hasDerivAt_id d).mul (hasDerivAt_id d)).const_add (R * R)
    have h2 := h.sub_const (r * r)
    convert h2 using 1
    simp [id]
    ring
  have hden : HasDerivAt (fun y : ℝ => 2 * y) 2 d := by
    simpa using (hasDerivAt_id d).const_mul (2:ℝ)
  have h2d : (2:ℝ) * d ≠ 0 := mul_ne_zero two_ne_zero hd
  have h := hnum.div hden h2d
  have : HasDerivAt (fun y => lensX R r y)
      ((2 * d * (2 * d) - (R * R + d * d - r * r) * 2) / (2 * d) ^ 2) d := h
  convert this using 1
  field_simp
  ring

lemma lensX_mul {R r d : ℝ} (hd : d ≠ 0) :
    lensX R r d * (2 * d) = R * R + d * d - r * r :=
  div_mul_cancel₀ _ (mul_ne_zero two_ne_zero hd)

lemma lensX_bounds {R r d : ℝ} (hR : 0 < R) (hr : 0 < r)
    (hlo : |R - r| < d) (hhi : d < R + r) :
    -R < lensX R r d ∧ lensX R r d < R ∧
      -r < d - lensX R r d ∧ d - lensX R r d < r := by
  have hd : 0 < d := lt_of_le_of_lt (abs_nonneg _) hlo
  have h1 : R - r < d := lt_of_le_of_lt (le_abs_self _) hlo
  have h2 : r - R < d := by
    have h := le_abs_self (r - R)
    rw [abs_sub_comm] at h
    exact lt_of_le_of_lt h hlo
  have key := @lensX_mul R r d hd.ne'
  refine ⟨?_, ?_, ?_, ?_⟩
  · nlinarith [mul_pos (show 0 < d + R - r by linarith) (show 0 < d + R + r by linarith)]
  · nlinarith [mul_pos (show 0 < r - d + R by linarith) (show 0 < r + d - R by linarith)]
  · nlinarith [mul_pos (show 0 < d + r - R by linarith) (show 0 < d + r + R by linarith)]
  · nlinarith [mul_pos (show 0 < R - d + r by linarith) (show 0 < R + d - r by linarith)]

lemma lensX_bounds_le {R r d : ℝ} (hR : 0 < R) (hr : 0 < r)
    (hlo : |R - r| ≤ d) (hhi : d ≤ R + r) :
    -R ≤ lensX R r d ∧ lensX R r d ≤ R ∧
      -r ≤ d - lensX R r d ∧ d - lensX R r d ≤ r := by
  rcases eq_or_lt_of_le (le_trans (abs_nonneg _) hlo) with h0 | hd
  · have hd0 : d = 0 := h0.symm
    have hRr : R = r := by
      have h1 : |R - r| = 0 := le_antisymm (hd0 ▸ hlo) (abs_nonneg _)
      have h2 := abs_eq_zero.mp h1
      linarith
    have hx0 : lensX R r d = 0 := by
      rw [hd0]
      simp [lensX]
    rw [hx0]
    refine ⟨by linarith, by linarith, by linarith, by linarith⟩
  · have h1 : R - r ≤ d := le_trans (le_abs_self _) hlo
    have h2 : r - R ≤ d := by
      have h := le_abs_self (r - R)
      rw [abs_sub_comm] at h
      exact le_trans h hlo
    have key := @lensX_mul R r d hd.ne'
    refine ⟨?_, ?_, ?_, ?_⟩
    · nlinarith [mul_nonneg (show 0 ≤ d + R - r by linarith) (show 0 ≤ d + R + r by linarith)]
    · nlinarith [mul_nonneg (show 0 ≤ r - d + R by linarith) (show 0 ≤ r + d - R by linarith)]
    · nlinarith [mul_nonneg (show 0 ≤ d + r - R by linarith) (show 0 ≤ d + r + R by linarith)]
    · nlinarith [mul_nonneg (show 0 ≤ R - d + r by linarith) (show 0 ≤ R + d - r by linarith)]

lemma lensArea_eq_segForm {R r d : ℝ} (hR : 0 < R) (hr : 0 < r)
    (hlo : |R - r| ≤ d) (hhi : d ≤ R + r) :
    lensArea R r d =
      R * R * segFun (lensX R r d / R) + r * r * segFun ((d - lensX R r d) / r) := by
  obtain ⟨hxa, hxb, hva, hvb⟩ := lensX_bounds_le hR hr hlo hhi
  have hu1 : -1 ≤ lensX R r d / R := by
    rw [le_div_iff hR]
    linarith
  have hu2 : lensX R r d / R ≤ 1 := by
    rw [div_le_one hR]
    exact hxb
  have hv1 : -1 ≤ (d - lensX R r d) / r := by
    rw [le_div_iff hr]
    linarith
  have hv2 : (d - lensX R r d) / r ≤ 1 := by
    rw [div_le_one hr]
    exact hvb
  unfold lensArea lensAR lensAr segFun
  rw [Real.sin_two_mul, Real.sin_two_mul, Real.sin_arccos, Real.sin_arccos,
    Real.cos_arccos hu1 hu2, Real.cos_arccos hv1 hv2]
  ring

lemma lensArea_hasDerivAt {R r d : ℝ} (hR : 0 < R) (hr : 0 < r)
    (hlo : |R - r| < d) (hhi : d < R + r) :
    HasDerivAt (fun y => lensArea R r y)
      (-2 * Real.sqrt (R * R - lensX R r d * lensX R r d)) d := by
  obtain ⟨hxa, hxb, hva, hvb⟩ := lensX_bounds hR hr hlo hhi
  have hd : 0 < d := lt_of_le_of_lt (abs_nonneg _) hlo
  have key := @lensX_mul R r d hd.ne'
  have hu1 : -1 < lensX R r d / R := by
    rw [lt_div_iff hR]
    linarith
  have hu2 : lensX R r d / R < 1 := by
    rw [div_lt_one hR]
    exact hxb
  have hv1 : -1 < (d - lensX R r d) / r := by
    rw [lt_div_iff hr]
    linarith
  have hv2 : (d - lensX R r d) / r < 1 := by
    rw [div_lt_one hr]
    exact hvb
  have hx := lensX_hasDerivAt R r hd.ne'
  have hu : HasDerivAt (fun y => lensX R r y / R)
      ((d * d - R * R + r * r) / (2 * d * d) / R) d := hx.div_const R
  have hv : HasDerivAt (fun y => (y - lensX R r y) / r)
      ((1 - (d * d - R * R + r * r) / (2 * d * d)) / r) d :=
    ((hasDerivAt_id d).sub hx).div_const r
  have hgu : HasDerivAt (fun y => segFun (lensX R r y / R))
      (-2 * Real.sqrt (1 - (lensX R r d / R) ^ 2) *
        ((d * d - R * R + r * r) / (2 * d * d) / R)) d :=
    (segFun_hasDerivAt hu1 hu2).comp d hu
  have hgv : HasDerivAt (fun y => segFun ((y - lensX R r y) / r))
      (-2 * Real.sqrt (1 - ((d - lensX R r d) / r) ^ 2) *
        ((1 - (d * d - R * R + r * r) / (2 * d * d)) / r)) d :=
    (segFun_hasDerivAt hv1 hv2).comp d hv
  have htot := (hgu.const_mul (R * R)).add (hgv.const_mul (r * r))
  have hev : (fun y => lensArea R r y) =ᶠ[nhds d]
      (fun y => R * R * segFun (lensX R r y / R) + r * r * segFun ((y - lensX R r y) / r)) := by
    refine Filter.eventuallyEq_of_mem (Ioo_mem_nhds hlo hhi) ?_
    intro y hy
    exact lensArea_eq_segForm hR hr hy.1.le hy.2.le
  have hfin := htot.congr_of_eventuallyEq hev
  convert hfin using 1
  have hRx : (0:ℝ) < R * R - lensX R r d * lensX R r d := by nlinarith
  have hrv : r * r - (d - lensX R r d) * (d - lensX R r d) = R * R - lensX R r d * lensX R r d := by
    linear_combination key
  have e1 : 1 - (lensX R r d / R) ^ 2 = (R * R - lensX R r d * lensX R r d) / (R * R) := by
    field_simp
    ring
  have e2 : 1 - ((d - lensX R r d) / r) ^ 2 =
      (R * R - lensX R r d * lensX R r d) / (r * r) := by
    rw [← hrv]
    field_simp
    ring
  rw [e1, e2, Real.sqrt_div hRx.le, Real.sqrt_div hRx.le,
    Real.sqrt_mul_self hR.le, Real.sqrt_mul_self hr.le]
  field_simp
  ring

lemma lensX_self (R y : ℝ) : lensX R R y = y / 2 := by
  rcases eq_or_ne y 0 with rfl | hy
  · simp [lensX]
  · unfold lensX
    rw [div_eq_div_iff (mul_ne_zero two_ne_zero hy) two_ne_zero]
    ring

lemma abs_sub_lt_add {R r : ℝ} (hR : 0 < R) (hr : 0 < r) : |R - r| < R + r := by
  rcases abs_cases (R - r) with ⟨h, _⟩ | ⟨h, _⟩ <;> rw [h] <;> linarith

lemma lensArea_continuousOn {R r : ℝ} (hR : 0 < R) (hr : 0 < r) :
    ContinuousOn (fun y => lensArea R r y) (Set.Icc |R - r| (R + r)) := by
  have hcx : ContinuousOn (fun y => lensX R r y) (Set.Icc |R - r| (R + r)) := by
    rcases eq_or_ne R r with rfl | hne
    · have hfx : (fun y => lensX R R y) = fun y : ℝ => y / 2 := funext (lensX_self R)
      rw [hfx]
      exact (continuousOn_id.div_const 2)
    · have hpos : ∀ y ∈ Set.Icc |R - r| (R + r), 2 * y ≠ 0 := by
        intro y hy
        have h0 : 0 < |R - r| := abs_pos.mpr (sub_ne_zero.mpr hne)
        have : 0 < y := lt_of_lt_of_le h0 hy.1
        positivity
      exact ContinuousOn.div
        ((continuousOn_const.add (continuousOn_id.mul continuousOn_id)).sub continuousOn_const)
        (continuousOn_const.mul continuousOn_id) hpos
  have harc1 : ContinuousOn (fun y => Real.arccos (lensX R r y / R))
      (Set.Icc |R - r| (R + r)) :=
    Real.continuous_arccos.comp_continuousOn (hcx.div_const R)
  have harc2 : ContinuousOn (fun y => Real.arccos ((y - lensX R r y) / r))
      (Set.Icc |R - r| (R + r)) :=
    Real.continuous_arccos.comp_continuousOn ((continuousOn_id.sub hcx).div_const r)
  have hsin1 : ContinuousOn (fun y => Real.sin (2 * Real.arccos (lensX R r y / R)))
      (Set.Icc |R - r| (R + r)) :=
    Real.continuous_sin.comp_continuousOn (continuousOn_const.mul harc1)
  have hsin2 : ContinuousOn
      (fun y => Real.sin (2 * Real.arccos ((y - lensX R r y) / r)))
      (Set.Icc |R - r| (R + r)) :=
    Real.continuous_sin.comp_continuousOn (continuousOn_const.mul harc2)
  unfold lensArea lensAR lensAr
  exact (continuousOn_const.mul (harc1.sub (continuousOn_const.mul hsin1))).add
    (continuousOn_const.mul (harc2.sub (continuousOn_const.mul hsin2)))

lemma lensArea_strictAntiOn {R r : ℝ} (hR : 0 < R) (hr : 0 < r) :
    StrictAntiOn (fun y => lensArea R r y) (Set.Icc |R - r| (R + r)) := by
  apply strictAntiOn_of_deriv_neg (convex_Icc _ _) (lensArea_continuousOn hR hr)
  intro y hy
  rw [interior_Icc] at hy
  rw [(lensArea_hasDerivAt hR hr hy.1 hy.2).deriv]
  obtain ⟨hxa, hxb, _, _⟩ := lensX_bounds hR hr hy.1 hy.2
  have hpos : 0 < R * R - lensX R r y * lensX R r y := by nlinarith
  have hs := Real.sqrt_pos.mpr hpos
  linarith

lemma lensX_at_hi {R r : ℝ} (h : 0 < R + r) : lensX R r (R + r) = R := by
  unfold lensX
  rw [div_eq_iff (by positivity)]
  ring

lemma lensArea_at_hi {R r : ℝ} (hR : 0 < R) (hr : 0 < r) : lensArea R r (R + r) = 0 := by
  unfold lensArea lensAR lensAr
  rw [lensX_at_hi (by linarith), div_self hR.ne',
    show (R + r - R) / r = 1 by rw [add_sub_cancel_left, div_self hr.ne']]
  simp [Real.arccos_one]

lemma lensArea_at_lo {R r : ℝ} (hR : 0 < R) (hr : 0 < r) :
    lensArea R r |R - r| = Real.pi * (min R r * min R r) := by
  rcases lt_trichotomy R r with h | h | h
  · have habs : |R - r| = r - R := by
      rw [abs_of_neg (by linarith)]
      ring
    have hx : lensX R r (r - R) = -R := by
      unfold lensX
      rw [div_eq_iff (by intro h0; nlinarith [mul_eq_zero.mp h0])]
      ring
    unfold lensArea lensAR lensAr
    rw [habs, hx,
      show -R / R = -1 by rw [neg_div, div_self hR.ne'],
      show (r - R - -R) / r = 1 by rw [sub_neg_eq_add, sub_add_cancel, div_self hr.ne'],
      Real.arccos_neg_one, Real.arccos_one, min_eq_left h.le]
    simp [Real.sin_two_pi]
    ring
  · subst h
    have habs : |R - R| = 0 := by simp
    unfold lensArea lensAR lensAr
    rw [habs, lensX_self, min_self]
    have hsin : Real.sin (2 * (Real.pi / 2)) = 0 := by
      rw [show 2 * (Real.pi / 2) = Real.pi by ring, Real.sin_pi]
    norm_num [Real.arccos_zero, hsin]
    ring
  · have habs : |R - r| = R - r := abs_of_pos (by linarith)
    have hx : lensX R r (R - r) = R := by
      unfold lensX
      rw [div_eq_iff (by intro h0; nlinarith [mul_eq_zero.mp h0])]
      ring
    unfold lensArea lensAR lensAr
    rw [habs, hx, div_self hR.ne',
      show (R - r - R) / r = -1 by rw [show R - r - R = -r by ring, neg_div, div_self hr.ne'],
      Real.arccos_neg_one, Real.arccos_one, min_eq_right h.le]
    simp [Real.sin_two_pi]
    ring

lemma lensArea_bounds {R r d : ℝ} (hR : 0 < R) (hr : 0 < r)
    (hlo : |R - r| < d) (hhi : d < R + r) :
    0 < lensArea R r d ∧ lensArea R r d < Real.pi * (min R r * min R r) := by
  have hmem_lo : |R - r| ∈ Set.Icc |R - r| (R + r) :=
    ⟨le_refl _, (abs_sub_lt_add hR hr).le⟩
  have hmem_d : d ∈ Set.Icc |R - r| (R + r) := ⟨hlo.le, hhi.le⟩
  have hmem_hi : R + r ∈ Set.Icc |R - r| (R + r) :=
    ⟨(abs_sub_lt_add hR hr).le, le_refl _⟩
  have h1 : lensArea R r (R + r) < lensArea R r d :=
    lensArea_strictAntiOn hR hr hmem_d hmem_hi hhi
  have h2 : lensArea R r d < lensArea R r |R - r| :=
    lensArea_strictAntiOn hR hr hmem_lo hmem_d hlo
  rw [lensArea_at_hi hR hr] at h1
  rw [lensArea_at_lo hR hr] at h2
  exact ⟨h1, h2⟩

lemma lensArea_lt_AS {R r d : ℝ} (hR : 0 < R) (hr : 0 < r)
    (hlo : |R - r| < d) (hhi : d < R + r) :
    lensArea R r d < lensAS R := by
  have h := (lensArea_bounds hR hr hlo hhi).2
  have hminR : min R r ≤ R := min_le_left R r
  have hmin0 : 0 ≤ min R r := (lt_min hR hr).le
  have h2 : Real.pi * (min R r * min R r) ≤ Real.pi * (R * R) := by
    have := mul_le_mul hminR hminR hmin0 hR.le
    nlinarith [Real.pi_pos]
  have h3 : Real.pi * (R * R) < lensAS R := by
    unfold lensAS
    nlinarith [pi_lt_code_const, mul_pos hR hR]
  linarith

lemma eclipseFactorCore_eq_one {R r d : ℝ} (h : R + r ≤ d) :
    eclipseFactorCore R r d = 1 := by
  unfold eclipseFactorCore
  rw [if_pos h]

lemma eclipseFactorCore_eq_zero {R r d : ℝ} (h1 : ¬(R + r ≤ d)) (h2 : d ≤ r - R) :
    eclipseFactorCore R r d = 0 := by
  unfold eclipseFactorCore
  rw [if_neg h1, if_pos h2]

lemma eclipseFactorCore_eq_inside {R r d : ℝ} (h1 : ¬(R + r ≤ d)) (h2 : ¬(d ≤ r - R))
    (h3 : d ≤ R - r) : eclipseFactorCore R r d = 1 - r * r / (R * R) := by
  unfold eclipseFactorCore
  rw [if_neg h1, if_neg h2, if_pos h3]

lemma eclipseFactorCore_eq_lens {R r d : ℝ} (h1 : ¬(R + r ≤ d)) (h2 : ¬(d ≤ r - R))
    (h3 : ¬(d ≤ R - r)) :
    eclipseFactorCore R r d = 1 - (lensAR R r d + lensAr R r d) / lensAS R := by
  unfold eclipseFactorCore
  rw [if_neg h1, if_neg h2, if_neg h3]

lemma lensAS_pos {R : ℝ} (hR : 0 < R) : 0 < lensAS R := by
  unfold lensAS
  positivity

lemma eclipseFactorCore_mem_Icc {R r d : ℝ} (hR : 0 < R) (hr : 0 < r) (hd : 0 ≤ d) :
    eclipseFactorCore R r d ∈ Set.Icc (0:ℝ) 1 := by
  rw [Set.mem_Icc]
  unfold eclipseFactorCore
  split_ifs with h1 h2 h3
  · exact ⟨zero_le_one, le_refl 1⟩
  · exact ⟨le_refl 0, zero_le_one⟩
  · have hrR : r ≤ R := by linarith
    have hRR : 0 < R * R := mul_pos hR hR
    have hq1 : r * r / (R * R) ≤ 1 := by
      rw [div_le_one hRR]
      nlinarith
    have hq0 : 0 ≤ r * r / (R * R) := by positivity
    exact ⟨by linarith, by linarith⟩
  · push_neg at h1 h2 h3
    have hlo : |R - r| < d := abs_sub_lt_iff.mpr ⟨by linarith, by linarith⟩
    have hhi : d < R + r := h1
    have hA := lensArea_bounds hR hr hlo hhi
    have hAS := @lensAS_pos R hR
    have hlt := lensArea_lt_AS hR hr hlo hhi
    unfold lensArea at hA hlt
    constructor
    · have hdiv : (lensAR R r d + lensAr R r d) / lensAS R ≤ 1 := by
        rw [div_le_one hAS]
        linarith
      linarith
    · have hdiv : 0 ≤ (lensAR R r d + lensAr R r d) / lensAS R :=
        div_nonneg hA.1.le hAS.le
      linarith

lemma eclipseFactorCore_monotoneOn {R r : ℝ} (hR : 0 < R) (hr : 0 < r) :
    MonotoneOn (fun d => eclipseFactorCore R r d) (Set.Ici 0) := by
  intro a ha b hb hab
  simp only [Set.mem_Ici] at ha hb
  rcases eq_or_lt_of_le hab with rfl | hlt
  · exact le_refl _
  simp only
  by_cases hb1 : R + r ≤ b
  · rw [eclipseFactorCore_eq_one hb1]
    exact (eclipseFactorCore_mem_Icc hR hr ha).2
  by_cases hb2 : b ≤ r - R
  · have hna1 : ¬(R + r ≤ a) := by intro h; linarith
    rw [eclipseFactorCore_eq_zero hna1 (by linarith), eclipseFactorCore_eq_zero hb1 hb2]
  by_cases hb3 : b ≤ R - r
  · have hrR : r < R := by push_neg at hb2; linarith
    have hna1 : ¬(R + r ≤ a) := by intro h; linarith
    rw [eclipseFactorCore_eq_inside hb1 hb2 hb3]
    by_cases ha2 : a ≤ r - R
    · rw [eclipseFactorCore_eq_zero hna1 ha2]
      have hRR : 0 < R * R := mul_pos hR hR
      have : r * r / (R * R) ≤ 1 := by
        rw [div_le_one hRR]
        nlinarith
      linarith
    · rw [eclipseFactorCore_eq_inside hna1 ha2 (by linarith)]
  · -- b is in the lens region
    push_neg at hb1 hb2 hb3
    have hlob : |R - r| < b := abs_sub_lt_iff.mpr ⟨by linarith, by linarith⟩
    have hfb := eclipseFactorCore_eq_lens (not_le.mpr hb1) (not_le.mpr hb2) (not_le.mpr hb3)
    have hAS := @lensAS_pos R hR
    have hAb := lensArea_bounds hR hr hlob hb1
    have hna1 : ¬(R + r ≤ a) := by intro h; linarith
    by_cases ha2 : a ≤ r - R
    · rw [eclipseFactorCore_eq_zero hna1 ha2]
      exact (eclipseFactorCore_mem_Icc hR hr hb).1
    by_cases ha3 : a ≤ R - r
    · -- a in the fully-inside region, b in the lens region
      have hrR : r ≤ R := by linarith
      have hmin : min R r = r := min_eq_right hrR
      rw [hmin] at hAb
      rw [eclipseFactorCore_eq_inside hna1 ha2 ha3, hfb]
      have hRR : 0 < R * R := mul_pos hR hR
      have hkey : (lensAR R r b + lensAr R r b) / lensAS R ≤ r * r / (R * R) := by
        rw [div_le_div_iff hAS hRR]
        have h2 := hAb.2
        unfold lensArea at h2
        unfold lensAS
        nlinarith [mul_lt_mul_of_pos_right h2 hRR,
          mul_lt_mul_of_pos_right pi_lt_code_const (mul_pos (mul_pos hr hr) hRR)]
      linarith
    · -- both in the lens region
      push_neg at ha2 ha3
      have hloa : |R - r| < a := abs_sub_lt_iff.mpr ⟨by linarith, by linarith⟩
      have hfa := eclipseFactorCore_eq_lens hna1 (not_le.mpr ha2) (not_le.mpr ha3)
      rw [hfa, hfb]
      have hanti : lensArea R r b < lensArea R r a :=
        lensArea_strictAntiOn hR hr ⟨hloa.le, by linarith⟩ ⟨hlob.le, hb1.le⟩ hlt
      unfold lensArea at hanti
      have hdiv : (lensAR R r b + lensAr R r b) / lensAS R ≤
          (lensAR R r a + lensAr R r a) / lensAS R :=
        (div_le_div_right hAS).mpr hanti.le
      linarith

lemma eclipseFactorCore_at_one : eclipseFactorCore 2 1 1 = 3 / 4 := by
  rw [eclipseFactorCore_eq_inside (by norm_num) (by norm_num) (by norm_num)]
  norm_num

lemma eclipseFactorCore_lens_lower {d : ℝ} (hd : d ∈ Set.Ioo (1:ℝ) 3) :
    1 - Real.pi / (4 * (2 * 1.57079633)) ≤ eclipseFactorCore 2 1 d := by
  obtain ⟨hd1, hd3⟩ := hd
  have habs : |(2:ℝ) - 1| = 1 := by norm_num
  have hfd := @eclipseFactorCore_eq_lens 2 1 d
    (by intro h; linarith) (by intro h; linarith) (by intro h; linarith)
  have hAb := (@lensArea_bounds 2 1 d (by norm_num) (by norm_num)
    (by rw [habs]; exact hd1) (by norm_num; linarith)).2
  have hmin : min (2:ℝ) 1 = 1 := by norm_num
  rw [hmin] at hAb
  have hAS : lensAS 2 = 4 * (2 * 1.57079633) := by
    unfold lensAS
    norm_num
  have hASpos : (0:ℝ) < lensAS 2 := lensAS_pos (by norm_num)
  have hL : lensArea 2 1 d / lensAS 2 ≤ Real.pi * (1 * 1) / lensAS 2 :=
    (div_le_div_right hASpos).mpr hAb.le
  rw [hfd, hAS]
  unfold lensArea at hL
  rw [hAS] at hL
  have h1 : Real.pi * (1 * 1) / (4 * (2 * 1.57079633)) =
      Real.pi / (4 * (2 * 1.57079633)) := by norm_num
  rw [h1] at hL
  linarith

lemma eclipseFactorCore_discontinuous :
    ¬ ContinuousOn (fun d => eclipseFactorCore 2 1 d) (Set.Ici (0:ℝ)) := by
  intro hcont
  have h1mem : (1:ℝ) ∈ Set.Ici (0:ℝ) := by norm_num
  have hc : Filter.Tendsto (fun d => eclipseFactorCore 2 1 d)
      (nhdsWithin 1 (Set.Ici (0:ℝ))) (nhds (eclipseFactorCore 2 1 1)) := hcont 1 h1mem
  rw [eclipseFactorCore_at_one] at hc
  have hsub : nhdsWithin (1:ℝ) (Set.Ioi (1:ℝ)) ≤ nhdsWithin 1 (Set.Ici (0:ℝ)) :=
    nhdsWithin_mono 1 (fun y hy => le_trans (by norm_num) (le_of_lt hy))
  have htend := hc.mono_left hsub
  have hmemIoo : Set.Ioo (1:ℝ) 3 ∈ nhdsWithin (1:ℝ) (Set.Ioi (1:ℝ)) :=
    Ioo_mem_nhdsWithin_Ioi ⟨le_refl 1, by norm_num⟩
  have hev : ∀ᶠ d in nhdsWithin (1:ℝ) (Set.Ioi (1:ℝ)),
      1 - Real.pi / (4 * (2 * 1.57079633)) ≤ eclipseFactorCore 2 1 d :=
    Filter.eventually_of_mem hmemIoo (fun d hd => eclipseFactorCore_lens_lower hd)
  have hge : 1 - Real.pi / (4 * (2 * 1.57079633)) ≤ 3 / 4 := ge_of_tendsto htend hev
  have hkpos : (0:ℝ) < 4 * (2 * 1.57079633) := by norm_num
  have h2 : (1:ℝ) / 4 ≤ Real.pi / (4 * (2 * 1.57079633)) := by linarith
  rw [le_div_iff hkpos] at h2
  have h4 : (1:ℝ) / 4 * (4 * (2 * 1.57079633)) = 2 * 1.57079633 := by norm_num
  rw [h4] at h2
  linarith [pi_lt_code_const]

/-! ### Planet records, observer snapshots and the ephemeris parameter -/

/-- Orbit elements relative to the parent body (struct `elements`);
the inclination field `in` is renamed `inc` (`in` is reserved in Lean). -/
structure Elements where
  mjd : ℝ
  inc : ℝ
  om : ℝ
  w : ℝ
  a : ℝ
  n : ℝ
  ec : ℝ
  ma : ℝ

/-- The per-planet data of struct `planet` used by the engine: identity,
physical constants, and the two mutable caches (heliocentric and
observer-relative). -/
structure PlanetData where
  id : ℤ
  radius_m : ℝ
  albedo : ℝ
  update_delta_s : ℝ
  last_full_update : ℝ
  last_full_pvh : PV
  pvo_obs_hash : ℕ
  pvo : PV
  orbit : Elements

/-- A planet together with its chain of parents (`planet->parent`); the C
invariant that the parent tree is finite and acyclic is captured by the
inductive structure. -/
inductive Planet where
  | root (data : PlanetData)
  | node (data : PlanetData) (parent : Planet)

def Planet.data : Planet → PlanetData
  | .root d => d
  | .node d _ => d

/-- Replace the data of a planet, keeping its parent chain. -/
def Planet.withData : Planet → PlanetData → Planet
  | .root _, d => .root d
  | .node _ par, d => .node d par

/-- An observer snapshot (struct `observer`), restricted to the fields the
engine reads. -/
structure Observer where
  tt : ℝ
  hash : ℕ
  earth_pvh : PV
  sun_pvb : PV
  obs_pvb : PV
  sun_pvo : PV

/-- Modelled from the spec: the external ephemeris models called by
`planet_get_pvh` (`eraPlan94`, the lunar theory behind
`moon_icrf_geocentric_pos`, the `l12` Galilean satellite theory, and the
Kepler solver `orbit_compute_pv`); these are deterministic functions of
time living outside this repository's sources, so the theorems quantify
over them. -/
structure Ephem where
  plan94 : ℤ → ℝ → PV
  moonIcrf : ℝ → Vec3
  l12 : ℤ → ℝ → PV
  orbitCompute : Elements → ℝ → PV

def SUN_ID : ℤ := 10

def MOON_ID : ℤ := 301

def EARTH_ID : ℤ := 399

def IO_ID : ℤ := 501

def JUPITER_ID : ℤ := 599

/-- The cache test at the top of `planet_get_pvh` (lines 190-196): the
epoch `last_full_update` is set (C truthiness: nonzero) and
`|obs->tt - last_full_update| < update_delta_s / ERFA_DAYSEC`. -/
def pvhCacheHit (d : PlanetData) (obs : Observer) : Prop :=
  d.last_full_update ≠ 0 ∧
    |obs.tt - d.last_full_update| < d.update_delta_s / ERFA_DAYSEC

noncomputable instance (d : PlanetData) (obs : Observer) : Decidable (pvhCacheHit d obs) := by
  unfold pvhCacheHit
  infer_instance

/-- Store a freshly computed heliocentric state and its epoch in the cache
(lines 250-252). -/
def storePvh (d : PlanetData) (pv : PV) (t : ℝ) : PlanetData :=
  { d with last_full_pvh := pv, last_full_update := t }

/-- The seven ids served by `eraPlan94` (lines 212-218). -/
def isMajorId (i : ℤ) : Prop :=
  i = 199 ∨ i = 299 ∨ i = 499 ∨ i = 599 ∨ i = 699 ∨ i = 799 ∨ i = 899

instance (i : ℤ) : Decidable (isMajorId i) := by
  unfold isMajorId
  infer_instance

/-- The Moon branch of `planet_get_pvh` (lines 205-210): geocentric ICRF
position at `tt` and `tt + 1`, velocity by first differencing, then add
the Earth's heliocentric state. -/
noncomputable def moonPvh (E : Ephem) (obs : Observer) : PV :=
  (PV.mk (E.moonIcrf obs.tt)
    ((E.moonIcrf (obs.tt + 1)).sub (E.moonIcrf obs.tt))).add obs.earth_pvh

/-- State-passing embedding of `planet_get_pvh` (lines 183-253): the
computed heliocentric pv-vector together with the planet record after the
call (the body's own cache, and the caches of the parents recursed into,
may have been updated; Earth, Sun and Moon return before the cache store).
For the two branches that need a parent (Galilean moons, generic orbit
bodies) a `root` planet contributes a zero parent state; the C code would
dereference a null pointer there, a case the catalog invariants rule
out. -/
noncomputable def planet_get_pvh (E : Ephem) (obs : Observer) : Planet → PV × Planet
  | .root d =>
    if pvhCacheHit d obs then
      (eraPvu (obs.tt - d.last_full_update) d.last_full_pvh, .root d)
    else if d.id = EARTH_ID then (obs.earth_pvh, .root d)
    else if d.id = SUN_ID then (PV.zero, .root d)
    else if d.id = MOON_ID then (moonPvh E obs, .root d)
    else if isMajorId d.id then
      let pv := E.plan94 ((d.id - 199) / 100 + 1) obs.tt
      (pv, .root (storePvh d pv obs.tt))
    else if IO_ID ≤ d.id ∧ d.id ≤ 504 then
      let pv := (E.l12 (d.id - IO_ID + 1) obs.tt).add PV.zero
      (pv, .root (storePvh d pv obs.tt))
    else
      let pv := (E.orbitCompute d.orbit obs.tt).add PV.zero
      (pv, .root (storePvh d pv obs.tt))
  | .node d par =>
    if pvhCacheHit d obs then
      (eraPvu (obs.tt - d.last_full_update) d.last_full_pvh, .node d par)
    else if d.id = EARTH_ID then (obs.earth_pvh, .node d par)
    else if d.id = SUN_ID then (PV.zero, .node d par)
    else if d.id = MOON_ID then (moonPvh E obs, .node d par)
    else if isMajorId d.id then
      let pv := E.plan94 ((d.id - 199) / 100 + 1) obs.tt
      (pv, .node (storePvh d pv obs.tt) par)
    else if IO_ID ≤ d.id ∧ d.id ≤ 504 then
      let pr := planet_get_pvh E obs par
      let pv := (E.l12 (d.id - IO_ID + 1) obs.tt).add pr.1
      (pv, .node (storePvh d pv obs.tt) pr.2)
    else
      let pr := planet_get_pvh E obs par
      let pv := (E.orbitCompute d.orbit obs.tt).add pr.1
      (pv, .node (storePvh d pv obs.tt) pr.2)

/-- Cache update at the end of `planet_get_pvo` (lines 291-293). -/
def storePvo (d : PlanetData) (h : ℕ) (pv : PV) : PlanetData :=
  { d with pvo_obs_hash := h, pvo := pv }

/-- State-passing embedding of `planet_get_pvo` (lines 264-294): observed
position centered on the observer, with the memoized fast path, the
first-pass translation into the observer frame, and (when requested) the
single light-time refinement at `obs->tt - ldt` followed by the cache
write. -/
noncomputable def planet_get_pvo (E : Ephem) (obs : Observer) (pl : Planet)
    (adjust_light_speed : Bool) : PV × Planet :=
  if adjust_light_speed = true ∧ obs.hash = pl.data.pvo_obs_hash then
    (pl.data.pvo, pl)
  else
    let r1 := planet_get_pvh E obs pl
    let pvo1 := (r1.1.add obs.sun_pvb).sub obs.obs_pvb
    if adjust_light_speed = false then (pvo1, r1.2)
    else
      let ldt := pvo1.p.norm * DAU / LIGHT_YEAR_IN_METER * DJY
      let obs2 := { obs with tt := obs.tt - ldt }
      let r2 := planet_get_pvh E obs2 r1.2
      let pvo2 := (r2.1.add obs.sun_pvb).sub obs.obs_pvb
      (pvo2, r2.2.withData (storePvo r2.2.data obs.hash pvo2))

/-- Embedding of `planet_get_phase` (lines 346-356).  The C function
returns the IEEE `NAN` sentinel for the Earth and the Sun; `ℝ` has no NaN,
so the sentinel is modelled by `none`. -/
noncomputable def planet_get_phase (E : Ephem) (pl : Planet) (obs : Observer) :
    Option ℝ :=
  if pl.data.id = EARTH_ID ∨ pl.data.id = SUN_ID then none
  else
    let r1 := planet_get_pvh E obs pl
    let r2 := planet_get_pvo E obs r1.2 true
    some (0.5 * Real.cos (sepp r1.1.p r2.1.p) + 0.5)

/-- Embedding of `compute_sun_eclipse_factor` (lines 311-344): look for the
first sibling with the Moon's id, compute the two apparent angular sizes
and the separation, and classify; `1.0` when no moon is present. -/
noncomputable def compute_sun_eclipse_factor (E : Ephem) (sun : Planet)
    (siblings : List Planet) (obs : Observer) : ℝ :=
  let sun_r := 2 * sun.data.radius_m / DAU / obs.sun_pvo.p.norm
  match siblings.find? (fun p => p.data.id == MOON_ID) with
  | none => 1
  | some p =>
    let pvo := (planet_get_pvo E obs p true).1
    let sph_r := 2 * p.data.radius_m / DAU / pvo.p.norm
    let sep := sepp obs.sun_pvo.p pvo.p
    eclipseFactorCore sun_r sph_r sep

/-- Embedding of `sun_get_vmag` (lines 358-367). -/
noncomputable def sun_get_vmag (E : Ephem) (sun : Planet) (siblings : List Planet)
    (obs : Observer) : ℝ :=
  let dist_pc := obs.earth_pvh.p.norm * (Real.pi / 648000)
  let eclipse_factor := max (compute_sun_eclipse_factor E sun siblings obs) 0.000128
  4.83 + 5 * (Real.logb 10 dist_pc - 1) - 2.5 * Real.logb 10 eclipse_factor

/-! ### Shadow candidates -/

/-- The Sun radius constant of `could_cast_shadow` (line 592), in AU. -/
noncomputable def SUN_RADIUS : ℝ := 695508000 / DAU

/-- The quantity `shadow_dist` of `could_cast_shadow` (line 610): distance
of the target along the light-source-to-candidate axis. -/
noncomputable def shadowDist (E : Ephem) (a b : Planet) (obs : Observer) : ℝ :=
  ((planet_get_pvh E obs a).1.p.normalize).dot (planet_get_pvh E obs b).1.p

/-- The quantity `d` of `could_cast_shadow` (line 611); note the C code
really takes `vec2_norm` (a 2-component norm) of the candidate's
heliocentric position there. -/
noncomputable def shadowD (E : Ephem) (a : Planet) (obs : Observer) : ℝ :=
  (planet_get_pvh E obs a).1.p.vec2norm / (a.data.radius_m / DAU / SUN_RADIUS + 1)

/-- The penumbra radius of `could_cast_shadow` (line 612). -/
noncomputable def penumbraR (E : Ephem) (a b : Planet) (obs : Observer) : ℝ :=
  (shadowDist E a b obs - shadowD E a obs) / shadowD E a obs * SUN_RADIUS

/-- The final geometric test of `could_cast_shadow` (lines 613-615): the
line from the light source through the candidate passes within
`penumbra_r + target_radius` of the target. -/
noncomputable def shadowGeom (E : Ephem) (a b : Planet) (obs : Observer) : Prop :=
  ((Vec3.smul (shadowDist E a b obs) ((planet_get_pvh E obs a).1.p.normalize)).sub
      (planet_get_pvh E obs b).1.p).norm <
    penumbraR E a b obs + b.data.radius_m / DAU

/-- Embedding of `could_cast_shadow` (lines 588-616) for a non-null
candidate `a` and target `b`: the three id pre-filters (no self-shadow,
Galilean bodies are only shadowed within the Jupiter system, the Moon only
by the Earth), the no-farther-than-the-target test, and the geometric
test.  The C calls to `planet_get_pvh` mutate the caches; re-querying a
body at the same observer returns bitwise the same value (a fresh store
followed by a zero-time extrapolation), so this embedding uses the value
projection. -/
noncomputable def could_cast_shadow (E : Ephem) (a b : Planet) (obs : Observer) : Prop :=
  ¬ (b.data.id = a.data.id) ∧
  ¬ ((IO_ID ≤ b.data.id ∧ b.data.id ≤ JUPITER_ID) ∧
      (a.data.id < IO_ID ∨ JUPITER_ID < a.data.id)) ∧
  ¬ (b.data.id = MOON_ID ∧ a.data.id ≠ EARTH_ID) ∧
  ¬ ((planet_get_pvh E obs b).1.p.norm2 < (planet_get_pvh E obs a).1.p.norm2) ∧
  shadowGeom E a b obs

noncomputable instance (E : Ephem) (a b : Planet) (obs : Observer) :
    Decidable (could_cast_shadow E a b obs) := by
  unfold could_cast_shadow shadowGeom
  infer_instance

/-- Embedding of `could_cast_shadow` with `a == NULL` (lines 599-600): the
quick test whether anything at all is known to shadow `b`. -/
def could_cast_shadow_null (b : Planet) : Prop :=
  b.data.id = MOON_ID ∨ (IO_ID ≤ b.data.id ∧ b.data.id ≤ JUPITER_ID)

instance (b : Planet) : Decidable (could_cast_shadow_null b) := by
  unfold could_cast_shadow_null
  infer_instance

/-- A shadow-candidate sphere: `xyz` = observed position, `w` = radius in
AU (comment at lines 623-631). -/
structure Sphere where
  pos : Vec3
  radius : ℝ

/-- Insertion into a list kept sorted by decreasing radius; this is what
the `qsort(spheres, nb, ..., sort_shadow_cmp)` of line 657 amounts to when
all entries but the appended one are already sorted.  A tie places the new
element after the equal radii (the C `qsort` order on ties is unspecified;
the top-k theorem below therefore assumes pairwise distinct radii). -/
noncomputable def insertSphere (s : Sphere) : List Sphere → List Sphere
  | [] => [s]
  | t :: ts => if t.radius < s.radius then s :: t :: ts else t :: insertSphere s ts

/-- One accepted-candidate iteration of `get_shadow_candidates`
(lines 645-657) acting on the sorted accumulator: with the list full, a
candidate with radius strictly below the smallest kept radius is skipped
(line 649), otherwise the smallest entry is dropped (line 651) and the
candidate inserted in sorted position. -/
noncomputable def shadowStep (nb_max : ℕ) (s : Sphere) (acc : List Sphere) :
    List Sphere :=
  if nb_max ≤ acc.length then
    if s.radius < ((acc.getLast?).getD ⟨Vec3.zero, 0⟩).radius then acc
    else insertSphere s acc.dropLast
  else insertSphere s acc

/-- The sphere recorded for an accepted candidate (lines 653-655): its
observed position and its radius in AU. -/
noncomputable def mkSphere (E : Ephem) (obs : Observer) (o : Planet) : Sphere :=
  ⟨(planet_get_pvo E obs o true).1.p, o.data.radius_m / DAU⟩

/-- Embedding of `get_shadow_candidates` (lines 632-661): early `return 0`
when the target cannot be shadowed at all, otherwise iterate over the
candidate bodies, filtering by `could_cast_shadow` and maintaining the
bounded sorted list. -/
noncomputable def get_shadow_candidates (E : Ephem) (planet : Planet)
    (others : List Planet) (obs : Observer) (nb_max : ℕ) : List Sphere :=
  if could_cast_shadow_null planet then
    others.foldl (fun acc o =>
      if could_cast_shadow E o planet obs then shadowStep nb_max (mkSphere E obs o) acc
      else acc) []
  else []

/-! ### Top-k properties of the shadow-candidate list -/

/-- Strictly-decreasing-radius order on spheres (the order produced by
`sort_shadow_cmp`, lines 618-621). -/
def sphGT (a b : Sphere) : Prop := b.radius < a.radius

lemma insertSphere_mem {s x : Sphere} : ∀ {l : List Sphere},
    x ∈ insertSphere s l ↔ x = s ∨ x ∈ l := by
  intro l
  induction l with
  | nil => simp [insertSphere]
  | cons t ts ih =>
    unfold insertSphere
    split_ifs with h
    · simp only [List.mem_cons]
    · simp only [List.mem_cons, ih]
      tauto

lemma insertSphere_length {s : Sphere} : ∀ {l : List Sphere},
    (insertSphere s l).length = l.length + 1 := by
  intro l
  induction l with
  | nil => simp [insertSphere]
  | cons t ts ih =>
    unfold insertSphere
    split_ifs with h
    · simp
    · simp [ih]

lemma insertSphere_pairwise {s : Sphere} : ∀ {l : List Sphere},
    l.Pairwise sphGT → (∀ t ∈ l, t.radius ≠ s.radius) →
    (insertSphere s l).Pairwise sphGT := by
  intro l
  induction l with
  | nil =>
    intro _ _
    simp [insertSphere]
  | cons t ts ih =>
    intro hp hne
    rw [List.pairwise_cons] at hp
    obtain ⟨hts, hp⟩ := hp
    unfold insertSphere
    split_ifs with h
    · refine List.Pairwise.cons ?_ (List.Pairwise.cons hts hp)
      intro y hy
      rcases List.mem_cons.mp hy with rfl | hy
      · exact h
      · have hyt := hts y hy
        unfold sphGT at hyt ⊢
        linarith
    · have hst : s.radius < t.radius :=
        lt_of_le_of_ne (not_lt.mp h) (hne t (List.mem_cons_self t ts)).symm
      refine List.Pairwise.cons ?_ (ih hp (fun u hu => hne u (List.mem_cons_of_mem t hu)))
      intro y hy
      rcases insertSphere_mem.mp hy with rfl | hy
      · exact hst
      · exact hts y hy

lemma sorted_last_lt {acc : List Sphere} (hp : acc.Pairwise sphGT) (h : acc ≠ []) :
    ∀ t ∈ acc.dropLast, (acc.getLast h).radius < t.radius := by
  intro t ht
  have hsplit := List.dropLast_append_getLast h
  rw [← hsplit] at hp
  rw [List.pairwise_append] at hp
  exact hp.2.2 t ht (acc.getLast h) (by simp)

lemma sorted_last_le {acc : List Sphere} (hp : acc.Pairwise sphGT) (h : acc ≠ []) :
    ∀ t ∈ acc, (acc.getLast h).radius ≤ t.radius := by
  intro t ht
  rw [← List.dropLast_append_getLast h] at ht
  rcases List.mem_append.mp ht with h1 | h1
  · exact (sorted_last_lt hp h t h1).le
  · simp at h1
    rw [h1]

/-- The bounded top-k invariant maintained by the loop of
`get_shadow_candidates`: the accumulator is sorted in strictly decreasing
radius order, holds `min nb_max (number processed)` entries all drawn from
the processed list, and any processed entry left out was dropped from a
full list in which every kept radius beats it. -/
def TopK (nb_max : ℕ) (l acc : List Sphere) : Prop :=
  acc.Pairwise sphGT ∧
  acc.length = min nb_max l.length ∧
  (∀ s ∈ acc, s ∈ l) ∧
  (∀ e ∈ l, e ∉ acc → acc.length = nb_max ∧ ∀ s ∈ acc, e.radius < s.radius)

lemma shadowStep_topK {nb_max : ℕ} (hnb : 1 ≤ nb_max) {l acc : List Sphere}
    (hinv : TopK nb_max l acc) {s : Sphere}
    (hd : ∀ e ∈ l, e.radius ≠ s.radius) :
    TopK nb_max (l ++ [s]) (shadowStep nb_max s acc) := by
  obtain ⟨hsort, hlen, hsub, hrej⟩ := hinv
  have hdacc : ∀ t ∈ acc, t.radius ≠ s.radius := fun t ht => hd t (hsub t ht)
  unfold shadowStep
  split_ifs with hfull hlast
  · -- list full, candidate radius below the smallest kept: skipped
    have haccnb : acc.length = nb_max := by
      have h1 := Nat.min_le_left nb_max l.length
      omega
    have hlnb : nb_max ≤ l.length := by
      rcases le_or_lt nb_max l.length with h | h
      · exact h
      · have h2 : min nb_max l.length = l.length := Nat.min_eq_right h.le
        omega
    have hne : acc ≠ [] := by
      intro h0
      rw [h0] at haccnb
      simp at haccnb
      omega
    have hgetD : ((acc.getLast?).getD ⟨Vec3.zero, 0⟩) = acc.getLast hne := by
      rw [List.getLast?_eq_getLast_of_ne_nil hne]
      rfl
    rw [hgetD] at hlast
    refine ⟨hsort, ?_, ?_, ?_⟩
    · rw [List.length_append]
      simp
      omega
    · intro t ht
      exact List.mem_append_left _ (hsub t ht)
    · intro e he hene
      rcases List.mem_append.mp he with he | he
      · exact hrej e he hene
      · simp at he
        subst he
        refine ⟨haccnb, ?_⟩
        intro t ht
        have hlast_le := sorted_last_le hsort hne t ht
        linarith
  · -- list full, smallest entry evicted, candidate inserted
    have haccnb : acc.length = nb_max := by
      have h1 := Nat.min_le_left nb_max l.length
      omega
    have hlnb : nb_max ≤ l.length := by
      rcases le_or_lt nb_max l.length with h | h
      · exact h
      · have h2 : min nb_max l.length = l.length := Nat.min_eq_right h.le
        omega
    have hne : acc ≠ [] := by
      intro h0
      rw [h0] at haccnb
      simp at haccnb
      omega
    have hgetD : ((acc.getLast?).getD ⟨Vec3.zero, 0⟩) = acc.getLast hne := by
      rw [List.getLast?_eq_getLast_of_ne_nil hne]
      rfl
    rw [hgetD] at hlast
    have hlast_mem : acc.getLast hne ∈ acc := List.getLast_mem hne
    have hlast_lt_s : (acc.getLast hne).radius < s.radius :=
      lt_of_le_of_ne (not_lt.mp hlast) (hdacc _ hlast_mem)
    have hdrop_sub : ∀ t ∈ acc.dropLast, t ∈ acc :=
      fun t ht => (List.dropLast_sublist acc).subset ht
    have hdrop_sorted : acc.dropLast.Pairwise sphGT :=
      hsort.sublist (List.dropLast_sublist acc)
    have hlen_new : (insertSphere s acc.dropLast).length = nb_max := by
      rw [insertSphere_length, List.length_dropLast]
      omega
    refine ⟨?_, ?_, ?_, ?_⟩
    · exact insertSphere_pairwise hdrop_sorted (fun t ht => hdacc t (hdrop_sub t ht))
    · rw [hlen_new, List.length_append]
      simp
      omega
    · intro t ht
      rcases insertSphere_mem.mp ht with rfl | ht
      · exact List.mem_append_right _ (by simp)
      · exact List.mem_append_left _ (hsub t (hdrop_sub t ht))
    · intro e he hene
      rcases List.mem_append.mp he with he | he
      · by_cases heacc : e ∈ acc
        · have hedrop : e ∉ acc.dropLast := by
            intro hx
            exact hene (insertSphere_mem.mpr (Or.inr hx))
          have helast : e = acc.getLast hne := by
            have hsplit := List.dropLast_append_getLast hne
            rw [← hsplit] at heacc
            rcases List.mem_append.mp heacc with hx | hx
            · exact absurd hx hedrop
            · simpa using hx
          subst helast
          refine ⟨hlen_new, ?_⟩
          intro t ht
          rcases insertSphere_mem.mp ht with rfl | ht
          · exact hlast_lt_s
          · exact sorted_last_lt hsort hne t ht
        · obtain ⟨_, hbound⟩ := hrej e he heacc
          refine ⟨hlen_new, ?_⟩
          intro t ht
          rcases insertSphere_mem.mp ht with rfl | ht
          · exact lt_trans (hbound _ hlast_mem) hlast_lt_s
          · exact hbound t (hdrop_sub t ht)
      · simp at he
        subst he
        exact absurd (insertSphere_mem.mpr (Or.inl rfl)) hene
  · -- list not yet full: plain sorted insertion
    push_neg at hfull
    have hlt_l : l.length < nb_max := by
      rcases le_or_lt nb_max l.length with h | h
      · have h2 : min nb_max l.length = nb_max := Nat.min_eq_left h
        omega
      · exact h
    refine ⟨?_, ?_, ?_, ?_⟩
    · exact insertSphere_pairwise hsort hdacc
    · rw [insertSphere_length, List.length_append]
      simp
      omega
    · intro t ht
      rcases insertSphere_mem.mp ht with rfl | ht
      · exact List.mem_append_right _ (by simp)
      · exact List.mem_append_left _ (hsub t ht)
    · intro e he hene
      rcases List.mem_append.mp he with he | he
      · by_cases heacc : e ∈ acc
        · exact absurd (insertSphere_mem.mpr (Or.inr heacc)) hene
        · obtain ⟨hfull2, _⟩ := hrej e he heacc
          omega
      · simp at he
        subst he
        exact absurd (insertSphere_mem.mpr (Or.inl rfl)) hene

lemma shadowFold_topK {nb_max : ℕ} (hnb : 1 ≤ nb_max) :
    ∀ (rest processed acc : List Sphere),
      TopK nb_max processed acc →
      (processed ++ rest).Pairwise (fun a b => a.radius ≠ b.radius) →
      TopK nb_max (processed ++ rest)
        (rest.foldl (fun ac s => shadowStep nb_max s ac) acc) := by
  intro rest
  induction rest with
  | nil =>
    intro processed acc hinv _
    simpa using hinv
  | cons s rest ih =>
    intro processed acc hinv hdist
    have hd : ∀ e ∈ processed, e.radius ≠ s.radius := by
      intro e he
      have hp := hdist
      rw [List.pairwise_append] at hp
      exact hp.2.2 e he s (by simp)
    have hstep := shadowStep_topK hnb hinv hd
    have hdist2 : ((processed ++ [s]) ++ rest).Pairwise (fun a b => a.radius ≠ b.radius) := by
      rw [List.append_assoc]
      simpa using hdist
    have hres := ih (processed ++ [s]) _ hstep hdist2
    rw [List.append_assoc] at hres
    simpa using hres

lemma get_shadow_candidates_fold (E : Ephem) (planet : Planet) (obs : Observer)
    (nb_max : ℕ) :
    ∀ (others : List Planet) (acc : List Sphere),
      others.foldl (fun ac o =>
        if could_cast_shadow E o planet obs then shadowStep nb_max (mkSphere E obs o) ac
        else ac) acc =
      ((others.filter (fun o => decide (could_cast_shadow E o planet obs))).map
        (mkSphere E obs)).foldl (fun ac s => shadowStep nb_max s ac) acc := by
  intro others
  induction others with
  | nil => intro acc; rfl
  | cons o os ih =>
    intro acc
    by_cases h : could_cast_shadow E o planet obs
    · simp [List.filter_cons, h, ih]
    · simp [List.filter_cons, h, ih]

/-! ### Cache fast paths and concrete fixtures -/

lemma eraPvu_zero (pv : PV) : eraPvu 0 pv = pv := by
  cases pv with
  | mk p v =>
    cases p
    cases v
    simp [eraPvu, Vec3.add, Vec3.smul]

/-- The cache fast path of `planet_get_pvh` (lines 190-196): on a cache
hit the extrapolated cached state is returned and the planet record is
untouched. -/
lemma planet_get_pvh_cached {E : Ephem} {obs : Observer} {pl : Planet}
    (h : pvhCacheHit pl.data obs) :
    planet_get_pvh E obs pl =
      (eraPvu (obs.tt - pl.data.last_full_update) pl.data.last_full_pvh, pl) := by
  cases pl with
  | root d =>
    simp only [Planet.data] at h ⊢
    unfold planet_get_pvh
    rw [if_pos h]
  | node d par =>
    simp only [Planet.data] at h ⊢
    unfold planet_get_pvh
    rw [if_pos h]

/-- The memoized fast path of `planet_get_pvo` (lines 271-274). -/
lemma planet_get_pvo_cached {E : Ephem} {obs : Observer} {pl : Planet}
    (h : obs.hash = pl.data.pvo_obs_hash) :
    planet_get_pvo E obs pl true = (pl.data.pvo, pl) := by
  unfold planet_get_pvo
  rw [if_pos ⟨rfl, h⟩]

/-- Trivial external ephemeris models, used to instantiate witnesses. -/
def E0 : Ephem := ⟨fun _ _ => PV.zero, fun _ => Vec3.zero, fun _ _ => PV.zero,
  fun _ _ => PV.zero⟩

def elem0 : Elements := ⟨0, 0, 0, 0, 0, 0, 0, 0⟩

/-- Concrete observer snapshot at `tt = 1` with fingerprint `7`. -/
def obsT : Observer := ⟨1, 7, PV.zero, PV.zero, PV.zero, PV.zero⟩

/-- A concrete body whose heliocentric cache holds position `(px,0,0)`
with zero velocity at epoch `1` (refresh interval one day) and whose
observer-relative cache holds the origin under fingerprint `7`. -/
def bodyT (i : ℤ) (rm : ℝ) (px : ℝ) : Planet :=
  .root ⟨i, rm, 0, 86400, 1, ⟨⟨px, 0, 0⟩, Vec3.zero⟩, 7, ⟨⟨0, 0, 0⟩, Vec3.zero⟩, elem0⟩

lemma bodyT_cacheHit (i : ℤ) (rm px : ℝ) : pvhCacheHit (bodyT i rm px).data obsT := by
  constructor
  · norm_num [bodyT, Planet.data]
  · norm_num [bodyT, Planet.data, obsT, ERFA_DAYSEC]

lemma pvh_bodyT (E : Ephem) (i : ℤ) (rm px : ℝ) :
    planet_get_pvh E obsT (bodyT i rm px) =
      (⟨⟨px, 0, 0⟩, Vec3.zero⟩, bodyT i rm px) := by
  rw [planet_get_pvh_cached (bodyT_cacheHit i rm px)]
  have hdt : obsT.tt - (bodyT i rm px).data.last_full_update = 0 := by
    norm_num [obsT, bodyT, Planet.data]
  rw [hdt, eraPvu_zero]
  rfl

lemma pvo_bodyT (E : Ephem) (i : ℤ) (rm px : ℝ) :
    planet_get_pvo E obsT (bodyT i rm px) true =
      (⟨⟨0, 0, 0⟩, Vec3.zero⟩, bodyT i rm px) := by
  rw [planet_get_pvo_cached (by norm_num [obsT, bodyT, Planet.data])]
  rfl

/-- A concrete body with separately chosen cached heliocentric and
observer-relative positions (epoch `1`, fingerprint `7`). -/
def bodyT2 (i : ℤ) (rm : ℝ) (p q : Vec3) : Planet :=
  .root ⟨i, rm, 0, 86400, 1, ⟨p, Vec3.zero⟩, 7, ⟨q, Vec3.zero⟩, elem0⟩

lemma bodyT2_cacheHit (i : ℤ) (rm : ℝ) (p q : Vec3) :
    pvhCacheHit (bodyT2 i rm p q).data obsT := by
  constructor
  · norm_num [bodyT2, Planet.data]
  · norm_num [bodyT2, Planet.data, obsT, ERFA_DAYSEC]

lemma pvh_bodyT2 (E : Ephem) (i : ℤ) (rm : ℝ) (p q : Vec3) :
    planet_get_pvh E obsT (bodyT2 i rm p q) = (⟨p, Vec3.zero⟩, bodyT2 i rm p q) := by
  rw [planet_get_pvh_cached (bodyT2_cacheHit i rm p q)]
  have hdt : obsT.tt - (bodyT2 i rm p q).data.last_full_update = 0 := by
    norm_num [obsT, bodyT2, Planet.data]
  rw [hdt, eraPvu_zero]
  rfl

lemma pvo_bodyT2 (E : Ephem) (i : ℤ) (rm : ℝ) (p q : Vec3) :
    planet_get_pvo E obsT (bodyT2 i rm p q) true = (⟨q, Vec3.zero⟩, bodyT2 i rm p q) := by
  rw [planet_get_pvo_cached (by norm_num [obsT, bodyT2, Planet.data])]
  rfl

/-- Concrete Galilean scenario: the target Io with two same-radius
occluders (Europa, Ganymede) exactly on the Sun-Io axis. -/
def ioT : Planet := bodyT 501 DAU 2

def europaT : Planet := bodyT 502 DAU 1

def ganymedeT : Planet := bodyT 503 DAU 1

lemma SUN_RADIUS_pos : 0 < SUN_RADIUS := by
  norm_num [SUN_RADIUS, DAU]

lemma norm_onezero : (Vec3.mk (1:ℝ) 0 0).norm = 1 := by
  unfold Vec3.norm Vec3.norm2
  norm_num

lemma vec2norm_onezero : (Vec3.mk (1:ℝ) 0 0).vec2norm = 1 := by
  unfold Vec3.vec2norm
  norm_num

lemma could_cast_shadow_axis {j : ℤ} (hj1 : 501 < j) (hj2 : j ≤ 599) :
    could_cast_shadow E0 (bodyT j DAU 1) ioT obsT := by
  unfold could_cast_shadow ioT
  rw [pvh_bodyT, pvh_bodyT]
  have hdata_j : (bodyT j DAU 1).data.id = j := rfl
  have hdata_io : (bodyT 501 DAU 2).data.id = 501 := rfl
  refine ⟨?_, ?_, ?_, ?_, ?_⟩
  · rw [hdata_io, hdata_j]
    omega
  · rw [hdata_io, hdata_j]
    unfold IO_ID JUPITER_ID
    intro h
    rcases h.2 with h2 | h2 <;> omega
  · rw [hdata_io]
    unfold MOON_ID
    intro h
    exact absurd h.1 (by norm_num)
  · norm_num [Vec3.norm2]
  · unfold shadowGeom penumbraR shadowDist shadowD
    rw [pvh_bodyT, pvh_bodyT]
    norm_num [Vec3.normalize, Vec3.smul, Vec3.dot, Vec3.sub, Vec3.norm, Vec3.norm2,
      Vec3.vec2norm, bodyT, Planet.data, SUN_RADIUS, DAU]

lemma could_cast_shadow_null_ioT : could_cast_shadow_null ioT := by
  unfold could_cast_shadow_null ioT bodyT Planet.data IO_ID JUPITER_ID MOON_ID
  norm_num

lemma shadow_candidates_tie_eval :
    get_shadow_candidates E0 ioT [europaT, ganymedeT] obsT 2 =
      [⟨⟨0, 0, 0⟩, DAU / DAU⟩, ⟨⟨0, 0, 0⟩, DAU / DAU⟩] := by
  have hE : could_cast_shadow E0 europaT ioT obsT :=
    could_cast_shadow_axis (by norm_num) (by norm_num)
  have hG : could_cast_shadow E0 ganymedeT ioT obsT :=
    could_cast_shadow_axis (by norm_num) (by norm_num)
  unfold get_shadow_candidates
  rw [if_pos could_cast_shadow_null_ioT]
  simp only [List.foldl_cons, List.foldl_nil]
  rw [if_pos hE, if_pos hG]
  have hmkE : mkSphere E0 obsT europaT = ⟨⟨0, 0, 0⟩, DAU / DAU⟩ := by
    unfold mkSphere europaT
    rw [pvo_bodyT]
    rfl
  have hmkG : mkSphere E0 obsT ganymedeT = ⟨⟨0, 0, 0⟩, DAU / DAU⟩ := by
    unfold mkSphere ganymedeT
    rw [pvo_bodyT]
    rfl
  rw [hmkE, hmkG]
  have hstep1 : shadowStep 2 (⟨⟨0, 0, 0⟩, DAU / DAU⟩ : Sphere) [] =
      [⟨⟨0, 0, 0⟩, DAU / DAU⟩] := by
    unfold shadowStep
    rw [if_neg (by norm_num)]
    rfl
  rw [hstep1]
  unfold shadowStep
  rw [if_neg (by norm_num)]
  unfold insertSphere
  rw [if_neg (lt_irrefl _)]
  rfl

/-- A body with empty heliocentric cache carrying the Moon's id. -/
def moonT : Planet := .root ⟨301, 1, 0, 86400, 0, PV.zero, 0, PV.zero, elem0⟩

lemma pvh_moonT : planet_get_pvh E0 obsT moonT = (moonPvh E0 obsT, moonT) := by
  unfold moonT planet_get_pvh
  rw [if_neg (by norm_num [pvhCacheHit]), if_neg (by norm_num [EARTH_ID]),
    if_neg (by norm_num [SUN_ID]), if_pos (by norm_num [MOON_ID])]

/-- A body (neither Earth nor Sun) whose cached heliocentric position and
cached observed position are orthogonal unit vectors. -/
def phaseBody : Planet := bodyT2 42 1 ⟨1, 0, 0⟩ ⟨0, 1, 0⟩

/-! ### Cache-field bookkeeping of `planet_get_pvh` -/

/-- `planet_get_pvh` never touches the observer-relative cache fields of
the queried body (it writes only `last_full_pvh` / `last_full_update`). -/
lemma pvh_preserves_pvo_cache (E : Ephem) (obs : Observer) (pl : Planet) :
    (planet_get_pvh E obs pl).2.data.pvo_obs_hash = pl.data.pvo_obs_hash ∧
    (planet_get_pvh E obs pl).2.data.pvo = pl.data.pvo := by
  cases pl with
  | root d =>
    unfold planet_get_pvh
    split_ifs <;> simp [Planet.data, storePvh]
  | node d par =>
    unfold planet_get_pvh
    split_ifs <;> simp [Planet.data, storePvh]

/-- The value and heliocentric-cache behaviour of `planet_get_pvh` do not
depend on the observer-relative cache fields of the queried body. -/
lemma pvh_ignores_pvo_cache (E : Ephem) (obs : Observer) (pl : Planet) (h2 : ℕ) (q2 : PV) :
    (planet_get_pvh E obs (pl.withData (storePvo pl.data h2 q2))).1 =
      (planet_get_pvh E obs pl).1 := by
  cases pl with
  | root d =>
    show (planet_get_pvh E obs (.root (storePvo d h2 q2))).1 = _
    unfold planet_get_pvh
    simp only [pvhCacheHit, storePvo, Planet.data]
    split_ifs <;> rfl
  | node d par =>
    show (planet_get_pvh E obs (.node (storePvo d h2 q2) par)).1 = _
    unfold planet_get_pvh
    simp only [pvhCacheHit, storePvo, Planet.data]
    split_ifs <;> rfl

/-! ### Claim theorems -/

/-- C1 (corrected).  For positive angular radii and nonnegative separation,
`compute_sun_eclipse_factor`'s classification returns exactly `1` when
`sep ≥ sun_r + sph_r`; exactly `0` when `sep ≤ sph_r - sun_r`; exactly
`1 - (sph_r/sun_r)²` when `sep ≤ sun_r - sph_r`; and otherwise `1` minus
the two-circle lens overlap area divided by `lensAS sun_r =
sun_r²·2·1.57079633` — the code's approximation of the source disk area,
not the exact `π·sun_r²` of the original claim (see the
counterexample). -/
theorem eclipse_factor_cases (sun_r sph_r sep : ℝ) (hR : 0 < sun_r) (hr : 0 < sph_r)
    (hsep : 0 ≤ sep) :
    (sun_r + sph_r ≤ sep → eclipseFactorCore sun_r sph_r sep = 1) ∧
    (sep ≤ sph_r - sun_r → eclipseFactorCore sun_r sph_r sep = 0) ∧
    (sep ≤ sun_r - sph_r →
      eclipseFactorCore sun_r sph_r sep = 1 - (sph_r / sun_r) ^ 2) ∧
    (¬ (sun_r + sph_r ≤ sep) → ¬ (sep ≤ sph_r - sun_r) → ¬ (sep ≤ sun_r - sph_r) →
      eclipseFactorCore sun_r sph_r sep =
        1 - lensArea sun_r sph_r sep / lensAS sun_r) := by
  refine ⟨?_, ?_, ?_, ?_⟩
  · intro h
    exact eclipseFactorCore_eq_one h
  · intro h
    exact eclipseFactorCore_eq_zero (by intro hc; linarith) h
  · intro h3
    by_cases h2 : sep ≤ sph_r - sun_r
    · have hsep0 : sep = 0 := le_antisymm (by linarith) hsep
      have hRr : sun_r = sph_r := le_antisymm (by linarith) (by linarith)
      rw [eclipseFactorCore_eq_zero (by intro hc; linarith) h2, hRr,
        div_self hr.ne']
      norm_num
    · rw [eclipseFactorCore_eq_inside (by intro hc; linarith) h2 h3]
      rw [div_pow]
      ring_nf
  · intro h1 h2 h3
    rw [eclipseFactorCore_eq_lens h1 h2 h3]
    rfl

/-- C1 witness: the classification theorem applied at
`sun_r = 1, sph_r = 1, sep = 3`. -/
theorem eclipse_factor_cases_witness :
    ((0:ℝ) < 1 ∧ (0:ℝ) < 1 ∧ (0:ℝ) ≤ 3) ∧
    ((1 + 1 ≤ (3:ℝ) → eclipseFactorCore 1 1 3 = 1) ∧
     ((3:ℝ) ≤ 1 - 1 → eclipseFactorCore 1 1 3 = 0) ∧
     ((3:ℝ) ≤ 1 - 1 → eclipseFactorCore 1 1 3 = 1 - (1 / 1) ^ 2) ∧
     (¬ ((1:ℝ) + 1 ≤ 3) → ¬ ((3:ℝ) ≤ 1 - 1) → ¬ ((3:ℝ) ≤ 1 - 1) →
       eclipseFactorCore 1 1 3 = 1 - lensArea 1 1 3 / lensAS 1)) :=
  ⟨⟨by norm_num, by norm_num, by norm_num⟩,
    eclipse_factor_cases 1 1 3 (by norm_num) (by norm_num) (by norm_num)⟩

/-- C1 counterexample: at `sun_r = 2, sph_r = 1, sep = 2` (a partial
overlap inside the claim's scope) the factor is not `1` minus the overlap
area divided by the true source disk area `π·sun_r²`: the code divides by
`sun_r²·2·1.57079633` and the overlap area is strictly positive there. -/
theorem eclipse_factor_lens_ne_pi :
    eclipseFactorCore 2 1 2 ≠ 1 - lensArea 2 1 2 / (Real.pi * (2 * 2)) := by
  have hL := (@lensArea_bounds 2 1 2 (by norm_num) (by norm_num)
    (by norm_num) (by norm_num)).1
  rw [eclipseFactorCore_eq_lens (by norm_num) (by norm_num) (by norm_num)]
  intro heq
  unfold lensArea at hL heq
  have hASpos : (0:ℝ) < lensAS 2 := lensAS_pos (by norm_num)
  have hpipos : (0:ℝ) < Real.pi * (2 * 2) := by positivity
  have h1 : (lensAR 2 1 2 + lensAr 2 1 2) / lensAS 2 =
      (lensAR 2 1 2 + lensAr 2 1 2) / (Real.pi * (2 * 2)) := by
    linarith
  rw [div_eq_div_iff hASpos.ne' hpipos.ne'] at h1
  have hAS : lensAS 2 = 4 * (2 * 1.57079633) := by
    unfold lensAS
    norm_num
  rw [hAS] at h1
  nlinarith [mul_pos hL (sub_pos.mpr pi_lt_code_const)]

/-- C2 (corrected).  For fixed positive radii the eclipse factor is
monotonically non-decreasing in the angular separation and lies in `[0,1]`
for every separation; the original claim's continuity fails (see the
counterexample): the code's constant `2·1.57079633 > π` produces an upward
jump at the internal-tangency separation `|sun_r - sph_r|`. -/
theorem eclipse_factor_monotone_bounded (sun_r sph_r : ℝ) (hR : 0 < sun_r)
    (hr : 0 < sph_r) :
    MonotoneOn (fun sep => eclipseFactorCore sun_r sph_r sep) (Set.Ici 0) ∧
    ∀ sep, 0 ≤ sep → eclipseFactorCore sun_r sph_r sep ∈ Set.Icc (0:ℝ) 1 :=
  ⟨eclipseFactorCore_monotoneOn hR hr, fun _ hsep => eclipseFactorCore_mem_Icc hR hr hsep⟩

/-- C2 witness: monotonicity and boundedness at the concrete radii
`sun_r = 2, sph_r = 1`. -/
theorem eclipse_factor_monotone_bounded_witness :
    ((0:ℝ) < 2 ∧ (0:ℝ) < 1) ∧
    (MonotoneOn (fun sep => eclipseFactorCore 2 1 sep) (Set.Ici 0) ∧
      ∀ sep, 0 ≤ sep → eclipseFactorCore 2 1 sep ∈ Set.Icc (0:ℝ) 1) :=
  ⟨⟨by norm_num, by norm_num⟩, eclipse_factor_monotone_bounded 2 1 (by norm_num) (by norm_num)⟩

/-- C2 counterexample: with radii `2` and `1` the factor, as a function of
the separation, is not continuous on `[0,∞)`: at separation `1` the code
returns `3/4` while on `(1,3)` every value exceeds
`1 - π/(4·2·1.57079633) > 3/4`. -/
theorem eclipse_factor_not_continuous :
    ¬ ContinuousOn (fun sep => eclipseFactorCore 2 1 sep) (Set.Ici (0:ℝ)) :=
  eclipseFactorCore_discontinuous

/-- C4 (confirmed).  For a body whose cache epoch is set and a query time
within the refresh interval, `planet_get_pvh` returns the cached position
advanced linearly by the cached velocity with the velocity unchanged, does
not modify the planet record, and does not evaluate the underlying orbital
models (the result is the same for every ephemeris). -/
theorem planet_get_pvh_cache_hit (E : Ephem) (obs : Observer) (pl : Planet)
    (h1 : pl.data.last_full_update ≠ 0)
    (h2 : |obs.tt - pl.data.last_full_update| <
      pl.data.update_delta_s / ERFA_DAYSEC) :
    (planet_get_pvh E obs pl).1.p =
      pl.data.last_full_pvh.p.add
        (Vec3.smul (obs.tt - pl.data.last_full_update) pl.data.last_full_pvh.v) ∧
    (planet_get_pvh E obs pl).1.v = pl.data.last_full_pvh.v ∧
    (planet_get_pvh E obs pl).2 = pl ∧
    ∀ E2 : Ephem, planet_get_pvh E2 obs pl = planet_get_pvh E obs pl := by
  have hres := @planet_get_pvh_cached E obs pl ⟨h1, h2⟩
  refine ⟨?_, ?_, ?_, ?_⟩
  · rw [hres]
    rfl
  · rw [hres]
    rfl
  · rw [hres]
  · intro E2
    rw [@planet_get_pvh_cached E2 obs pl ⟨h1, h2⟩, hres]

def c4body : Planet := .root ⟨42, 1, 0, 86400, 10, ⟨⟨1, 2, 3⟩, ⟨4, 5, 6⟩⟩, 0, PV.zero, elem0⟩

def c4obs : Observer := ⟨10.25, 0, PV.zero, PV.zero, PV.zero, PV.zero⟩

/-- C4 witness: the cache-hit theorem applied to a concrete cached body
queried a quarter day after its epoch. -/
theorem planet_get_pvh_cache_hit_witness :
    (c4body.data.last_full_update ≠ 0 ∧
      |c4obs.tt - c4body.data.last_full_update| <
        c4body.data.update_delta_s / ERFA_DAYSEC) ∧
    ((planet_get_pvh E0 c4obs c4body).1.p =
      c4body.data.last_full_pvh.p.add
        (Vec3.smul (c4obs.tt - c4body.data.last_full_update)
          c4body.data.last_full_pvh.v) ∧
    (planet_get_pvh E0 c4obs c4body).1.v = c4body.data.last_full_pvh.v ∧
    (planet_get_pvh E0 c4obs c4body).2 = c4body ∧
    ∀ E2 : Ephem, planet_get_pvh E2 c4obs c4body = planet_get_pvh E0 c4obs c4body) :=
  ⟨⟨by norm_num [c4body, Planet.data],
    by norm_num [c4body, c4obs, Planet.data, ERFA_DAYSEC, abs_of_nonneg]⟩,
    planet_get_pvh_cache_hit E0 c4obs c4body (by norm_num [c4body, Planet.data])
      (by norm_num [c4body, c4obs, Planet.data, ERFA_DAYSEC, abs_of_nonneg])⟩

/-- C5 (corrected).  On a heliocentric cache miss, `planet_get_pvh` stores
the freshly computed state and the query time into the cache exactly for
the bodies computed by the planetary series, the Galilean series or the
generic Kepler fallback; the Earth, Sun and Moon branches return before
the cache store (`return` statements at lines 200, 203 and 210), leaving
the body's record untouched — contrary to the original claim's "every
body class, including Earth, the Sun and the Moon". -/
theorem planet_get_pvh_cache_store (E : Ephem) (obs : Observer) (pl : Planet)
    (hmiss : ¬ pvhCacheHit pl.data obs) :
    ((pl.data.id ≠ EARTH_ID ∧ pl.data.id ≠ SUN_ID ∧ pl.data.id ≠ MOON_ID) →
      (planet_get_pvh E obs pl).2.data.last_full_pvh = (planet_get_pvh E obs pl).1 ∧
      (planet_get_pvh E obs pl).2.data.last_full_update = obs.tt) ∧
    ((pl.data.id = EARTH_ID ∨ pl.data.id = SUN_ID ∨ pl.data.id = MOON_ID) →
      (planet_get_pvh E obs pl).2 = pl) := by
  cases pl with
  | root d =>
    simp only [Planet.data] at hmiss ⊢
    constructor
    · rintro ⟨h399, h10, h301⟩
      unfold planet_get_pvh
      rw [if_neg hmiss, if_neg h399, if_neg h10, if_neg h301]
      split_ifs with hmajor hgal
      · exact ⟨rfl, rfl⟩
      · exact ⟨rfl, rfl⟩
      · exact ⟨rfl, rfl⟩
    · rintro (h | h | h)
      · unfold planet_get_pvh
        rw [if_neg hmiss, if_pos h]
      · unfold planet_get_pvh
        rw [if_neg hmiss, if_neg (by rw [h]; norm_num [EARTH_ID, SUN_ID]), if_pos h]
      · unfold planet_get_pvh
        rw [if_neg hmiss, if_neg (by rw [h]; norm_num [EARTH_ID, MOON_ID]),
          if_neg (by rw [h]; norm_num [SUN_ID, MOON_ID]), if_pos h]
  | node d par =>
    simp only [Planet.data] at hmiss ⊢
    constructor
    · rintro ⟨h399, h10, h301⟩
      unfold planet_get_pvh
      rw [if_neg hmiss, if_neg h399, if_neg h10, if_neg h301]
      split_ifs with hmajor hgal
      · exact ⟨rfl, rfl⟩
      · exact ⟨rfl, rfl⟩
      · exact ⟨rfl, rfl⟩
    · rintro (h | h | h)
      · unfold planet_get_pvh
        rw [if_neg hmiss, if_pos h]
      · unfold planet_get_pvh
        rw [if_neg hmiss, if_neg (by rw [h]; norm_num [EARTH_ID, SUN_ID]), if_pos h]
      · unfold planet_get_pvh
        rw [if_neg hmiss, if_neg (by rw [h]; norm_num [EARTH_ID, MOON_ID]),
          if_neg (by rw [h]; norm_num [SUN_ID, MOON_ID]), if_pos h]

def marsT : Planet := .root ⟨499, 1, 0, 86400, 0, PV.zero, 0, PV.zero, elem0⟩

/-- C5 witness: the store/no-store theorem applied to a concrete Mars body
with an unset cache. -/
theorem planet_get_pvh_cache_store_witness :
    (¬ pvhCacheHit marsT.data obsT) ∧
    (((marsT.data.id ≠ EARTH_ID ∧ marsT.data.id ≠ SUN_ID ∧ marsT.data.id ≠ MOON_ID) →
      (planet_get_pvh E0 obsT marsT).2.data.last_full_pvh =
        (planet_get_pvh E0 obsT marsT).1 ∧
      (planet_get_pvh E0 obsT marsT).2.data.last_full_update = obsT.tt) ∧
    ((marsT.data.id = EARTH_ID ∨ marsT.data.id = SUN_ID ∨ marsT.data.id = MOON_ID) →
      (planet_get_pvh E0 obsT marsT).2 = marsT)) :=
  ⟨by norm_num [pvhCacheHit, marsT, Planet.data],
    planet_get_pvh_cache_store E0 obsT marsT
      (by norm_num [pvhCacheHit, marsT, Planet.data])⟩

/-- C5 counterexample: a Moon body with an unset cache queried at
`tt = 1` does not get the query time stored in its cache epoch — the Moon
branch of `planet_get_pvh` returns before the cache store. -/
theorem moon_cache_not_stored :
    (planet_get_pvh E0 obsT moonT).2.data.last_full_update ≠ obsT.tt := by
  rw [pvh_moonT]
  norm_num [moonT, Planet.data, obsT]

/-- C6 (confirmed).  On an observer-hash miss with light-time adjustment
requested, `planet_get_pvo` returns the heliocentric state re-evaluated
exactly once at `obs.tt - ldt` (on the planet state left by the first
pass) translated into the observer frame by adding the Sun's and
subtracting the observer's barycentric state, where `ldt` is the one-way
light travel time of the first-pass distance: the second conjunct checks
that `norm·DAU / LIGHT_YEAR_IN_METER · DJY` is exactly
`norm·DAU / c / 86400` days, light travel time at `c = 299792458 m/s`. -/
theorem planet_get_pvo_light_time (E : Ephem) (obs : Observer) (pl : Planet)
    (hmiss : obs.hash ≠ pl.data.pvo_obs_hash) :
    (planet_get_pvo E obs pl true).1 =
      (((planet_get_pvh E { obs with tt := obs.tt -
          ((((planet_get_pvh E obs pl).1.add obs.sun_pvb).sub obs.obs_pvb).p.norm *
            DAU / LIGHT_YEAR_IN_METER * DJY) } (planet_get_pvh E obs pl).2).1.add
        obs.sun_pvb).sub obs.obs_pvb) ∧
    (((planet_get_pvh E obs pl).1.add obs.sun_pvb).sub obs.obs_pvb).p.norm *
        DAU / LIGHT_YEAR_IN_METER * DJY =
      (((planet_get_pvh E obs pl).1.add obs.sun_pvb).sub obs.obs_pvb).p.norm *
        DAU / 299792458 / ERFA_DAYSEC := by
  constructor
  · unfold planet_get_pvo
    rw [if_neg (by intro hc; exact hmiss hc.2)]
    rfl
  · unfold LIGHT_YEAR_IN_METER DJY ERFA_DAYSEC
    field_simp
    ring

def c6obs : Observer := ⟨10.25, 1, PV.zero, PV.zero, PV.zero, PV.zero⟩

/-- C6 witness: the light-time theorem applied to a concrete body whose
observer-cache fingerprint differs from the observer's. -/
theorem planet_get_pvo_light_time_witness :
    (c6obs.hash ≠ c4body.data.pvo_obs_hash) ∧
    ((planet_get_pvo E0 c6obs c4body true).1 =
      (((planet_get_pvh E0 { c6obs with tt := c6obs.tt -
          ((((planet_get_pvh E0 c6obs c4body).1.add c6obs.sun_pvb).sub
            c6obs.obs_pvb).p.norm *
            DAU / LIGHT_YEAR_IN_METER * DJY) } (planet_get_pvh E0 c6obs c4body).2).1.add
        c6obs.sun_pvb).sub c6obs.obs_pvb) ∧
    (((planet_get_pvh E0 c6obs c4body).1.add c6obs.sun_pvb).sub c6obs.obs_pvb).p.norm *
        DAU / LIGHT_YEAR_IN_METER * DJY =
      (((planet_get_pvh E0 c6obs c4body).1.add c6obs.sun_pvb).sub
        c6obs.obs_pvb).p.norm * DAU / 299792458 / ERFA_DAYSEC) :=
  ⟨by norm_num [c6obs, c4body, Planet.data],
    planet_get_pvo_light_time E0 c6obs c4body
      (by norm_num [c6obs, c4body, Planet.data])⟩

/-- C9 (confirmed).  With light-time adjustment disabled, `planet_get_pvo`
neither writes the observer-relative cache (the fingerprint and the cached
pvo of the returned record are those of the input record) nor reads it
(the returned value is unchanged under any rewrite of those two
fields). -/
theorem planet_get_pvo_no_adjust_cache (E : Ephem) (obs : Observer) (pl : Planet) :
    (planet_get_pvo E obs pl false).2.data.pvo_obs_hash = pl.data.pvo_obs_hash ∧
    (planet_get_pvo E obs pl false).2.data.pvo = pl.data.pvo ∧
    ∀ (h2 : ℕ) (q2 : PV),
      (planet_get_pvo E obs (pl.withData (storePvo pl.data h2 q2)) false).1 =
        (planet_get_pvo E obs pl false).1 := by
  have hval : planet_get_pvo E obs pl false =
      ((((planet_get_pvh E obs pl).1.add obs.sun_pvb).sub obs.obs_pvb),
        (planet_get_pvh E obs pl).2) := by
    unfold planet_get_pvo
    rw [if_neg (by simp)]
    rw [if_pos rfl]
  have hpv := pvh_preserves_pvo_cache E obs pl
  refine ⟨?_, ?_, ?_⟩
  · rw [hval]
    exact hpv.1
  · rw [hval]
    exact hpv.2
  · intro h2 q2
    have hval2 : planet_get_pvo E obs (pl.withData (storePvo pl.data h2 q2)) false =
        ((((planet_get_pvh E obs (pl.withData (storePvo pl.data h2 q2))).1.add
          obs.sun_pvb).sub obs.obs_pvb),
          (planet_get_pvh E obs (pl.withData (storePvo pl.data h2 q2))).2) := by
      unfold planet_get_pvo
      rw [if_neg (by simp)]
      rw [if_pos rfl]
    rw [hval, hval2, pvh_ignores_pvo_cache]

/-- C3 (corrected).  Provided the target passes the `could_cast_shadow
(NULL, target)` prefilter of line 642 and the candidate bodies have
pairwise distinct radii, `get_shadow_candidates` returns a list sorted by
strictly decreasing radius, of length `min nb_max (number of eligible
bodies)` (hence never more than `nb_max`), whose entries are drawn from
the eligible bodies and beat in radius every eligible body left out —
i.e. exactly the top-`nb_max` by radius.  The original claim fails
without these provisos: when the prefilter rejects the target the
function returns no entries even if eligible occluders exist, and with
tied radii the output is not strictly decreasing (see the
counterexample). -/
theorem get_shadow_candidates_topk (E : Ephem) (planet : Planet)
    (others : List Planet) (obs : Observer) (nb_max : ℕ) (hnb : 1 ≤ nb_max)
    (hpre : could_cast_shadow_null planet)
    (hdist : others.Pairwise (fun a b => a.data.radius_m ≠ b.data.radius_m)) :
    (get_shadow_candidates E planet others obs nb_max).Pairwise sphGT ∧
    (get_shadow_candidates E planet others obs nb_max).length =
      min nb_max
        ((others.filter (fun o => decide (could_cast_shadow E o planet obs))).length) ∧
    (∀ s ∈ get_shadow_candidates E planet others obs nb_max,
      s ∈ (others.filter (fun o => decide (could_cast_shadow E o planet obs))).map
        (mkSphere E obs)) ∧
    (∀ e ∈ (others.filter (fun o => decide (could_cast_shadow E o planet obs))).map
        (mkSphere E obs),
      e ∉ get_shadow_candidates E planet others obs nb_max →
      ∀ s ∈ get_shadow_candidates E planet others obs nb_max,
        e.radius < s.radius) := by
  have hres : get_shadow_candidates E planet others obs nb_max =
      ((others.filter (fun o => decide (could_cast_shadow E o planet obs))).map
        (mkSphere E obs)).foldl (fun ac s => shadowStep nb_max s ac) [] := by
    unfold get_shadow_candidates
    rw [if_pos hpre]
    exact get_shadow_candidates_fold E planet obs nb_max others []
  have hD : (DAU:ℝ) ≠ 0 := by norm_num [DAU]
  have hd2 : (((others.filter (fun o => decide (could_cast_shadow E o planet obs))).map
      (mkSphere E obs))).Pairwise (fun a b => a.radius ≠ b.radius) := by
    rw [List.pairwise_map]
    have hsubl : List.Sublist
        (others.filter (fun o => decide (could_cast_shadow E o planet obs))) others :=
      List.filter_sublist others
    have hp := hdist.sublist hsubl
    refine hp.imp ?_
    intro a b hab
    unfold mkSphere
    intro hcon
    apply hab
    field_simp at hcon
    exact hcon
  have h0 : TopK nb_max [] [] := by
    refine ⟨List.Pairwise.nil, by simp, by simp, by simp⟩
  have htop := shadowFold_topK hnb
    (((others.filter (fun o => decide (could_cast_shadow E o planet obs))).map
      (mkSphere E obs))) [] [] h0 (by simpa using hd2)
  simp only [List.nil_append] at htop
  rw [← hres] at htop
  obtain ⟨ht1, ht2, ht3, ht4⟩ := htop
  refine ⟨ht1, ?_, ht3, fun e he hne s hs => (ht4 e he hne).2 s hs⟩
  rw [ht2, List.length_map]

/-- C3 witness: the top-k theorem applied to the concrete Io target with
two distinct-radius Galilean candidates. -/
theorem get_shadow_candidates_topk_witness :
    (1 ≤ 2 ∧ could_cast_shadow_null ioT ∧
      ([bodyT 502 DAU 1, bodyT 503 (2 * DAU) 1].Pairwise
        (fun a b => a.data.radius_m ≠ b.data.radius_m))) ∧
    ((get_shadow_candidates E0 ioT [bodyT 502 DAU 1, bodyT 503 (2 * DAU) 1] obsT 2).Pairwise
        sphGT ∧
    (get_shadow_candidates E0 ioT [bodyT 502 DAU 1, bodyT 503 (2 * DAU) 1] obsT 2).length =
      min 2 (([bodyT 502 DAU 1, bodyT 503 (2 * DAU) 1].filter
        (fun o => decide (could_cast_shadow E0 o ioT obsT))).length) ∧
    (∀ s ∈ get_shadow_candidates E0 ioT [bodyT 502 DAU 1, bodyT 503 (2 * DAU) 1] obsT 2,
      s ∈ ([bodyT 502 DAU 1, bodyT 503 (2 * DAU) 1].filter
        (fun o => decide (could_cast_shadow E0 o ioT obsT))).map (mkSphere E0 obsT)) ∧
    (∀ e ∈ ([bodyT 502 DAU 1, bodyT 503 (2 * DAU) 1].filter
        (fun o => decide (could_cast_shadow E0 o ioT obsT))).map (mkSphere E0 obsT),
      e ∉ get_shadow_candidates E0 ioT [bodyT 502 DAU 1, bodyT 503 (2 * DAU) 1] obsT 2 →
      ∀ s ∈ get_shadow_candidates E0 ioT [bodyT 502 DAU 1, bodyT 503 (2 * DAU) 1] obsT 2,
        e.radius < s.radius)) :=
  ⟨⟨by norm_num, could_cast_shadow_null_ioT,
    by
      simp only [List.pairwise_cons, List.mem_singleton, List.Pairwise.nil,
        List.not_mem_nil, false_implies, implies_true, and_true]
      intro b hb
      rw [hb]
      norm_num [bodyT, Planet.data, DAU]⟩,
    get_shadow_candidates_topk E0 ioT [bodyT 502 DAU 1, bodyT 503 (2 * DAU) 1] obsT 2
      (by norm_num) could_cast_shadow_null_ioT
      (by
        simp only [List.pairwise_cons, List.mem_singleton, List.Pairwise.nil,
          List.not_mem_nil, false_implies, implies_true, and_true]
        intro b hb
        rw [hb]
        norm_num [bodyT, Planet.data, DAU])⟩

/-- C3 counterexample: with the target Io and two eligible same-radius
occluders (Europa and Ganymede, both on the Sun-Io axis), the returned
list is not sorted by strictly decreasing radius — its two entries carry
equal radii. -/
theorem get_shadow_candidates_tie_not_strict :
    ¬ (get_shadow_candidates E0 ioT [europaT, ganymedeT] obsT 2).Pairwise sphGT := by
  rw [shadow_candidates_tie_eval]
  intro h
  rw [List.pairwise_cons] at h
  have hlt := h.1 (⟨⟨0, 0, 0⟩, DAU / DAU⟩ : Sphere) (by simp)
  unfold sphGT at hlt
  exact absurd hlt (lt_irrefl _)

/-- C7 (confirmed).  With the observer at heliocentric distance `1` AU and
eclipse factor `1`, `sun_get_vmag` returns exactly
`4.83 + 5·(log10(π/648000) - 1)` (π/648000 is one AU expressed in
parsec); and for every observer its value never exceeds the unobstructed
value at the same distance by more than `2.5·log10(1/0.000128)`, because
the eclipse factor is floored at `0.000128` before the logarithm. -/
theorem sun_get_vmag_spec (E : Ephem) (sun : Planet) (siblings : List Planet)
    (obs : Observer) :
    (obs.earth_pvh.p.norm = 1 →
      compute_sun_eclipse_factor E sun siblings obs = 1 →
      sun_get_vmag E sun siblings obs =
        4.83 + 5 * (Real.logb 10 (Real.pi / 648000) - 1)) ∧
    sun_get_vmag E sun siblings obs ≤
      4.83 + 5 * (Real.logb 10 (obs.earth_pvh.p.norm * (Real.pi / 648000)) - 1) +
        2.5 * Real.logb 10 (1 / 0.000128) := by
  constructor
  · intro hnorm hecl
    show 4.83 + 5 * (Real.logb 10 (obs.earth_pvh.p.norm * (Real.pi / 648000)) - 1) -
        2.5 * Real.logb 10
          (max (compute_sun_eclipse_factor E sun siblings obs) 0.000128) = _
    rw [hnorm, hecl, one_mul]
    rw [show max (1:ℝ) 0.000128 = 1 from by norm_num]
    rw [Real.logb_one]
    ring
  · show 4.83 + 5 * (Real.logb 10 (obs.earth_pvh.p.norm * (Real.pi / 648000)) - 1) -
        2.5 * Real.logb 10
          (max (compute_sun_eclipse_factor E sun siblings obs) 0.000128) ≤ _
    have hb : (1:ℝ) < 10 := by norm_num
    have hfl : (0:ℝ) < 0.000128 := by norm_num
    have hle : (0.000128:ℝ) ≤
        max (compute_sun_eclipse_factor E sun siblings obs) 0.000128 :=
      le_max_right _ _
    have hlog := Real.logb_le_logb_of_le hb hfl hle
    have hinv : Real.logb 10 (1 / 0.000128) = - Real.logb 10 0.000128 := by
      rw [one_div, Real.logb_inv]
    linarith

def sunT : Planet := .root ⟨10, 695508000, 0, 86400, 0, PV.zero, 0, PV.zero, elem0⟩

def obsW : Observer := ⟨1, 7, ⟨⟨1, 0, 0⟩, Vec3.zero⟩, PV.zero, PV.zero, PV.zero⟩

/-- C7 witness: the magnitude theorem applied to a concrete Sun with no
moon among the siblings (factor `1`) and an observer at distance `1`. -/
theorem sun_get_vmag_spec_witness :
    (obsW.earth_pvh.p.norm = 1 ∧ compute_sun_eclipse_factor E0 sunT [] obsW = 1) ∧
    ((obsW.earth_pvh.p.norm = 1 →
      compute_sun_eclipse_factor E0 sunT [] obsW = 1 →
      sun_get_vmag E0 sunT [] obsW =
        4.83 + 5 * (Real.logb 10 (Real.pi / 648000) - 1)) ∧
    sun_get_vmag E0 sunT [] obsW ≤
      4.83 + 5 * (Real.logb 10 (obsW.earth_pvh.p.norm * (Real.pi / 648000)) - 1) +
        2.5 * Real.logb 10 (1 / 0.000128)) :=
  ⟨⟨by
      show (Vec3.mk (1:ℝ) 0 0).norm = 1
      exact norm_onezero, rfl⟩,
    sun_get_vmag_spec E0 sunT [] obsW⟩

/-- C8 (corrected).  `planet_get_phase` returns the `NAN` sentinel
(modelled `none`) exactly for the Earth and the Sun; for every other body
it returns `0.5·cos i + 0.5` where `i` is the phase angle — the
illuminated fraction of the disk, not the phase angle in radians claimed
by the original sentence (see the counterexample). -/
theorem planet_get_phase_sentinel (E : Ephem) (pl : Planet) (obs : Observer) :
    (planet_get_phase E pl obs = none ↔
      (pl.data.id = EARTH_ID ∨ pl.data.id = SUN_ID)) ∧
    ((pl.data.id ≠ EARTH_ID ∧ pl.data.id ≠ SUN_ID) →
      planet_get_phase E pl obs =
        some (0.5 * Real.cos (sepp (planet_get_pvh E obs pl).1.p
          (planet_get_pvo E obs (planet_get_pvh E obs pl).2 true).1.p) + 0.5)) := by
  constructor
  · unfold planet_get_phase
    split_ifs with h
    · simp [h]
    · simp [h]
  · rintro ⟨h1, h2⟩
    unfold planet_get_phase
    rw [if_neg (by tauto)]

/-- C8 witness: the sentinel theorem applied to a concrete non-Earth,
non-Sun body. -/
theorem planet_get_phase_sentinel_witness :
    (phaseBody.data.id ≠ EARTH_ID ∧ phaseBody.data.id ≠ SUN_ID) ∧
    ((planet_get_phase E0 phaseBody obsT = none ↔
      (phaseBody.data.id = EARTH_ID ∨ phaseBody.data.id = SUN_ID)) ∧
    ((phaseBody.data.id ≠ EARTH_ID ∧ phaseBody.data.id ≠ SUN_ID) →
      planet_get_phase E0 phaseBody obsT =
        some (0.5 * Real.cos (sepp (planet_get_pvh E0 obsT phaseBody).1.p
          (planet_get_pvo E0 obsT (planet_get_pvh E0 obsT phaseBody).2 true).1.p)
          + 0.5))) :=
  ⟨⟨by norm_num [phaseBody, bodyT2, Planet.data, EARTH_ID],
    by norm_num [phaseBody, bodyT2, Planet.data, SUN_ID]⟩,
    planet_get_phase_sentinel E0 phaseBody obsT⟩

/-- C8 counterexample: a body whose cached heliocentric and observed
directions are orthogonal has phase angle `π/2`, yet `planet_get_phase`
returns `1/2` — the illuminated fraction, not the angle. -/
theorem planet_get_phase_not_angle :
    planet_get_phase E0 phaseBody obsT = some (1 / 2) ∧
    sepp (planet_get_pvh E0 obsT phaseBody).1.p
      (planet_get_pvo E0 obsT (planet_get_pvh E0 obsT phaseBody).2 true).1.p =
      Real.pi / 2 ∧
    (1 / 2 : ℝ) ≠ Real.pi / 2 := by
  have hpvh : planet_get_pvh E0 obsT phaseBody =
      (⟨⟨1, 0, 0⟩, Vec3.zero⟩, phaseBody) := pvh_bodyT2 E0 42 1 _ _
  have hpvo : planet_get_pvo E0 obsT phaseBody true =
      (⟨⟨0, 1, 0⟩, Vec3.zero⟩, phaseBody) := pvo_bodyT2 E0 42 1 _ _
  have hsepp : sepp (Vec3.mk (1:ℝ) 0 0) (Vec3.mk (0:ℝ) 1 0) = Real.pi / 2 := by
    unfold sepp Vec3.dot Vec3.norm Vec3.norm2
    norm_num
  refine ⟨?_, ?_, ?_⟩
  · unfold planet_get_phase
    rw [if_neg (by norm_num [phaseBody, bodyT2, Planet.data, EARTH_ID, SUN_ID])]
    rw [hpvh]
    norm_num [hpvo, hsepp]
  · rw [hpvh]
    norm_num [hpvo, hsepp]
  · intro h
    have h3 := Real.pi_gt_three
    linarith

/-- C10 (confirmed).  For every body other than the Earth and the Sun,
`planet_get_phase` returns `0.5·cos i + 0.5` where `i` is the phase angle
(the angle between the body's heliocentric and observer-relative position
vectors), a value that always lies in `[0,1]` — the illuminated fraction
of the disk rather than an angle. -/
theorem planet_get_phase_illuminated (E : Ephem) (pl : Planet) (obs : Observer)
    (h1 : pl.data.id ≠ EARTH_ID) (h2 : pl.data.id ≠ SUN_ID) :
    ∃ v, planet_get_phase E pl obs = some v ∧
      v = 0.5 * Real.cos (sepp (planet_get_pvh E obs pl).1.p
        (planet_get_pvo E obs (planet_get_pvh E obs pl).2 true).1.p) + 0.5 ∧
      0 ≤ v ∧ v ≤ 1 := by
  refine ⟨_, ?_, rfl, ?_, ?_⟩
  · unfold planet_get_phase
    rw [if_neg (by tauto)]
  · have hc := Real.neg_one_le_cos (sepp (planet_get_pvh E obs pl).1.p
      (planet_get_pvo E obs (planet_get_pvh E obs pl).2 true).1.p)
    linarith
  · have hc := Real.cos_le_one (sepp (planet_get_pvh E obs pl).1.p
      (planet_get_pvo E obs (planet_get_pvh E obs pl).2 true).1.p)
    linarith

/-- C10 witness: the illuminated-fraction theorem applied to the concrete
orthogonal-directions body. -/
theorem planet_get_phase_illuminated_witness :
    (phaseBody.data.id ≠ EARTH_ID ∧ phaseBody.data.id ≠ SUN_ID) ∧
    (∃ v, planet_get_phase E0 phaseBody obsT = some v ∧
      v = 0.5 * Real.cos (sepp (planet_get_pvh E0 obsT phaseBody).1.p
        (planet_get_pvo E0 obsT (planet_get_pvh E0 obsT phaseBody).2 true).1.p) + 0.5 ∧
      0 ≤ v ∧ v ≤ 1) :=
  ⟨⟨by norm_num [phaseBody, bodyT2, Planet.data, EARTH_ID],
    by norm_num [phaseBody, bodyT2, Planet.data, SUN_ID]⟩,
    planet_get_phase_illuminated E0 phaseBody obsT
      (by norm_num [phaseBody, bodyT2, Planet.data, EARTH_ID])
      (by norm_num [phaseBody, bodyT2, Planet.data, SUN_ID])⟩
